import Mathlib

/-!
# learn-chaincode: asset ledger chaincode (`finished/chaincode_finished.go`)

A shallow embedding of the chaincode and the properties of its table layer:
insert-once writes, point reads, prefix scans, the record codec and the
dual-table write performed by `PostAsset`.

Conventions of the embedding.

* A Go `string` and a Go `[]byte` are both sequences of bytes (`List Byte`);
  a Go string is not required to be valid UTF-8.
* A Go `error` result is `Option GoError` (`none` is `nil`); a `[]byte` result
  whose nil-ness the program tests is `Option Bytes` (`none` is `nil`).
* A function that can stop with a run-time panic (index out of range) returns
  `Option`, with `none` for the panic.
* The ledger is passed explicitly: an operation that writes returns the new
  `ChaincodeStub`.
* `fmt.Println` output is not part of the model.
* The libraries are modelled as far as the chaincode uses them: `strconv.Atoi`
  for a 64-bit `int`, `encoding/json` on the record type `AssetObject` (strings
  are coerced to valid UTF-8 on encoding, as `json.Marshal` does since Go 1.2),
  and the table interface of the shim.
-/

namespace Chaincode

/-! ## Go values -/

/-- One byte. -/
abbrev Byte := Fin 256

/-- A Go `[]byte`. -/
abbrev Bytes := List Byte

/-- A Go `string`: an arbitrary sequence of bytes. -/
abbrev GoString := List Byte

/-- The bytes of a string literal of the source. Every literal of the source is
ASCII, where a character is the byte of its code point. -/
def str (s : String) : GoString := s.data.map (fun c => Fin.ofNat c.toNat)

/-- Causes of the errors that the libraries produce; their texts are not modelled. -/
inductive LibError
  /-- `encoding/json`: the input is not one well-formed JSON value. -/
  | jsonSyntax
  /-- `encoding/json`: a JSON value of the named kind cannot be stored in its Go target. -/
  | jsonUnmarshalType (value : String)
  /-- The ledger: the named table does not exist. -/
  | tableNotFound
  /-- The ledger: the named table exists already. -/
  | tableExists
  /-- The ledger: the column definitions of a new table are not acceptable. -/
  | invalidColumnDefinitions
  /-- The ledger: the row does not have the columns its table defines. -/
  | rowMismatch
  deriving DecidableEq, Repr

/-- A Go `error` value. -/
inductive GoError
  /-- An error built by `errors.New(msg)`, or by `fmt.Errorf` from strings only. -/
  | New (msg : GoString)
  /-- An error built by `fmt.Errorf(pre + "%s", cause)`: its text is `pre` followed by the text of `cause`. -/
  | Errorf (pre : GoString) (cause : GoError)
  /-- An error returned by a library. -/
  | Lib (e : LibError)
  deriving DecidableEq, Repr

/-! ## The ledger (`shim.ChaincodeStubInterface`)

The chaincode reaches the ledger only through the methods of the stub. The shim
is a library outside the repository; the model below follows the interface the
specification gives for it. -/

/-- The column types the chaincode uses (`shim.ColumnDefinition_Type`). -/
inductive ColumnDefinition_Type
  | STRING
  | BYTES
  deriving DecidableEq, Repr

/-- A column definition (`shim.ColumnDefinition`). -/
structure ColumnDefinition where
  Name : GoString
  Type_ : ColumnDefinition_Type
  Key : Bool
  deriving DecidableEq, Repr

/-- A column value (`shim.Column`), with the two variants the chaincode builds. -/
inductive Column
  | String_ (s : GoString)
  | Bytes (b : Bytes)
  deriving DecidableEq, Repr

/-- The method `GetBytes` of `shim.Column`: the bytes of a bytes column, `nil` for any other. -/
def Column.GetBytes : Column → Option (List Byte)
  | Column.Bytes b => some b
  | Column.String_ _ => none

/-- A row (`shim.Row`). -/
structure Row where
  Columns : List Column
  deriving DecidableEq, Repr

/-- A table of the ledger: its name, its schema and its rows in insertion order. -/
structure Table where
  Name : GoString
  ColumnDefinitions : List ColumnDefinition
  Rows : List Row
  deriving DecidableEq, Repr

/-- The ledger as one invocation sees it: the tables and the flat key-value state. -/
structure ChaincodeStub where
  tables : List Table
  state : List (GoString × Bytes)
  deriving DecidableEq, Repr

/-- Whether a column value has the type a definition asks for. -/
def columnHasType : Column → ColumnDefinition_Type → Bool
  | Column.String_ _, ColumnDefinition_Type.STRING => true
  | Column.Bytes _, ColumnDefinition_Type.BYTES => true
  | _, _ => false

/-- The key of a row under a schema: the values of the columns defined as keys.
`none` when the row does not have exactly the columns of the schema, each of its type. -/
def getKeyAndVerifyRow : List ColumnDefinition → List Column → Option (List Column)
  | [], [] => some []
  | d :: ds, c :: cs =>
    if columnHasType c d.Type_ then
      match getKeyAndVerifyRow ds cs with
      | some ks => some (if d.Key then c :: ks else ks)
      | none => none
    else none
  | _, _ => none

/-- The first table with the given name. -/
def getTable (stub : ChaincodeStub) (tableName : GoString) : Option Table :=
  stub.tables.find? (fun t => decide (t.Name = tableName))

/-- Whether a row of a table has the given key. -/
def rowHasKey (defs : List ColumnDefinition) (key : List Column) (r : Row) : Bool :=
  decide (getKeyAndVerifyRow defs r.Columns = some key)

/-- Whether the key of a row of a table starts with the given partial key. -/
def rowHasKeyPrefix (defs : List ColumnDefinition) (key : List Column) (r : Row) : Bool :=
  match getKeyAndVerifyRow defs r.Columns with
  | some k => key.isPrefixOf k
  | none => false

/-- Replace the first table with the given name by its image under `f`. -/
def updateTable (tableName : GoString) (f : Table → Table) : List Table → List Table
  | [] => []
  | t :: ts => if t.Name = tableName then f t :: ts else t :: updateTable tableName f ts

/-- Whether column definitions are acceptable for a new table: at least one
column, every name non-empty, no name twice, at least one key column. -/
def validColumnDefinitions (defs : List ColumnDefinition) : Bool :=
  !defs.isEmpty && defs.all (fun d => !d.Name.isEmpty) &&
    decide ((defs.map (fun d => d.Name)).Nodup) && defs.any (fun d => d.Key)

/-- Modelled from the spec: engine primitive `createTable(name, columns) -> ok | alreadyExists | error`
(`stub.CreateTable`, part of the shim library, which is outside the repository).
The Go method returns one `error`, so every outcome other than `ok` is a non-nil error. -/
def CreateTable (stub : ChaincodeStub) (name : GoString) (columnDefinitions : List ColumnDefinition) :
    ChaincodeStub × Option GoError :=
  match getTable stub name with
  | some _ => (stub, some (GoError.Lib LibError.tableExists))
  | none =>
    if validColumnDefinitions columnDefinitions then
      ({ stub with tables := stub.tables ++ [⟨name, columnDefinitions, []⟩] }, none)
    else (stub, some (GoError.Lib LibError.invalidColumnDefinitions))

/-- Modelled from the spec: engine primitive `dropTable(name) -> ok | notFound | error`
(`stub.DeleteTable`, part of the shim library, which is outside the repository).
The table and its rows are removed; a table that does not exist is not an error for the caller. -/
def DeleteTable (stub : ChaincodeStub) (tableName : GoString) : ChaincodeStub × Option GoError :=
  ({ stub with tables := stub.tables.filter (fun t => !decide (t.Name = tableName)) }, none)

/-- The ledger with a row appended to the first table of the given name. -/
def appendRow (stub : ChaincodeStub) (tableName : GoString) (row : Row) : ChaincodeStub :=
  { stub with tables :=
      updateTable tableName (fun t => { t with Rows := t.Rows ++ [row] }) stub.tables }

/-- Modelled from the spec: engine primitive `insertRow(table, orderedColumnValues) -> inserted:boolean, error`
(`stub.InsertRow`, part of the shim library, which is outside the repository).
A row whose key is present is not inserted and the table is left as it was
(`false` without error); a missing table or a row that does not fit the schema
is an error. -/
def InsertRow (stub : ChaincodeStub) (tableName : GoString) (row : Row) :
    ChaincodeStub × Bool × Option GoError :=
  match getTable stub tableName with
  | none => (stub, false, some (GoError.Lib LibError.tableNotFound))
  | some table =>
    match getKeyAndVerifyRow table.ColumnDefinitions row.Columns with
    | none => (stub, false, some (GoError.Lib LibError.rowMismatch))
    | some key =>
      if table.Rows.any (rowHasKey table.ColumnDefinitions key) then (stub, false, none)
      else (appendRow stub tableName row, true, none)

/-- Modelled from the spec: engine primitive `getRow(table, exactKeyPredicate) -> row(possiblyEmpty), error`
(`stub.GetRow`, part of the shim library, which is outside the repository).
The row with the given key, or the empty row when there is none. -/
def GetRow (stub : ChaincodeStub) (tableName : GoString) (key : List Column) :
    Row × Option GoError :=
  match getTable stub tableName with
  | none => (⟨[]⟩, none)
  | some table =>
    match table.Rows.find? (rowHasKey table.ColumnDefinitions key) with
    | some row => (row, none)
    | none => (⟨[]⟩, none)

/-- Modelled from the spec: engine primitive `getRows(table, partialKeyPredicate) -> stream of row, error`
(`stub.GetRows`, part of the shim library, which is outside the repository).
The stream is finite; it is the list of the rows it delivers, in order: the rows
whose leading key components are the given ones. -/
def GetRows (stub : ChaincodeStub) (tableName : GoString) (key : List Column) :
    List Row × Option GoError :=
  match getTable stub tableName with
  | none => ([], some (GoError.Lib LibError.tableNotFound))
  | some table => (table.Rows.filter (rowHasKeyPrefix table.ColumnDefinitions key), none)

/-- Modelled from the spec: engine primitive `putFlatValue(key, bytes) -> error`
(`stub.PutState`, part of the shim library, which is outside the repository). -/
def PutState (stub : ChaincodeStub) (key : GoString) (value : Bytes) :
    ChaincodeStub × Option GoError :=
  ({ stub with state := (key, value) :: stub.state.filter (fun kv => !decide (kv.1 = key)) }, none)

/-! ## `unicode/utf8` -/

/-- The rune `utf8.RuneError`, U+FFFD. -/
def RuneError : Nat := 0xFFFD

/-- Whether a byte is a continuation byte, in `0x80..0xBF`. -/
def isCont (b : Byte) : Bool := decide (0x80 ≤ b.val ∧ b.val ≤ 0xBF)

/-- The function `utf8.DecodeRune`: the first rune of the bytes and its width.
An encoding that is not well formed (a stray continuation byte, an overlong
form, a surrogate, a value above U+10FFFF, a truncated sequence) gives
`(RuneError, 1)`. The masks and shifts of the Go code are written as
remainders and products. -/
def decodeRune : List Byte → Nat × Nat
  | [] => (RuneError, 0)
  | p0 :: rest =>
    if p0.val < 0x80 then (p0.val, 1)
    else if p0.val < 0xC2 then (RuneError, 1)
    else if p0.val < 0xE0 then
      match rest with
      | b1 :: _ =>
        if isCont b1 then (p0.val % 32 * 64 + b1.val % 64, 2) else (RuneError, 1)
      | _ => (RuneError, 1)
    else if p0.val < 0xF0 then
      match rest with
      | b1 :: b2 :: _ =>
        if (if p0.val = 0xE0 then 0xA0 else 0x80) ≤ b1.val ∧
            b1.val ≤ (if p0.val = 0xED then 0x9F else 0xBF) then
          if isCont b2 then (p0.val % 16 * 4096 + b1.val % 64 * 64 + b2.val % 64, 3)
          else (RuneError, 1)
        else (RuneError, 1)
      | _ => (RuneError, 1)
    else if p0.val < 0xF5 then
      match rest with
      | b1 :: b2 :: b3 :: _ =>
        if (if p0.val = 0xF0 then 0x90 else 0x80) ≤ b1.val ∧
            b1.val ≤ (if p0.val = 0xF4 then 0x8F else 0xBF) then
          if isCont b2 then
            if isCont b3 then
              (p0.val % 8 * 262144 + b1.val % 64 * 4096 + b2.val % 64 * 64 + b3.val % 64, 4)
            else (RuneError, 1)
          else (RuneError, 1)
        else (RuneError, 1)
      | _ => (RuneError, 1)
    else (RuneError, 1)

/-- The function `utf8.EncodeRune`: the UTF-8 bytes of a rune; a surrogate or a
value above U+10FFFF is written as U+FFFD. -/
def encodeRune (r : Nat) : List Byte :=
  if r ≤ 0x7F then [Fin.ofNat r]
  else if r ≤ 0x7FF then [Fin.ofNat (0xC0 + r / 64), Fin.ofNat (0x80 + r % 64)]
  else if 0x10FFFF < r ∨ (0xD800 ≤ r ∧ r ≤ 0xDFFF) then [0xEF, 0xBF, 0xBD]
  else if r ≤ 0xFFFF then
    [Fin.ofNat (0xE0 + r / 4096), Fin.ofNat (0x80 + r / 64 % 64), Fin.ofNat (0x80 + r % 64)]
  else
    [Fin.ofNat (0xF0 + r / 262144), Fin.ofNat (0x80 + r / 4096 % 64),
      Fin.ofNat (0x80 + r / 64 % 64), Fin.ofNat (0x80 + r % 64)]

/-- The function `utf8.Valid` on at most `fuel` runes. -/
def validAux : Nat → List Byte → Bool
  | 0, s => s.isEmpty
  | _ + 1, [] => true
  | fuel + 1, b :: rest =>
    let d := decodeRune (b :: rest)
    if d.1 = RuneError ∧ d.2 = 1 then false else validAux fuel ((b :: rest).drop d.2)

/-- The function `utf8.Valid`: whether the bytes are well-formed UTF-8 throughout. -/
def utf8Valid (s : List Byte) : Bool := validAux s.length s

/-! ## `strconv` -/

/-- The value of a run of decimal digits added to `acc`, `none` at any other byte. -/
def parseDigits : Nat → GoString → Option Nat
  | acc, [] => some acc
  | acc, c :: cs =>
    if 0x30 ≤ c.val ∧ c.val ≤ 0x39 then parseDigits (acc * 10 + (c.val - 0x30)) cs else none

/-- The function `strconv.Atoi` for a 64-bit `int`: an optional sign and at least
one decimal digit, with a value in the range of `int`; `none` is the error result. -/
def Atoi (s : GoString) : Option Int :=
  match s with
  | [] => none
  | c :: cs =>
    let neg := decide (c.val = 0x2D)
    let digits := if c.val = 0x2B ∨ c.val = 0x2D then cs else c :: cs
    if digits.isEmpty then none
    else
      match parseDigits 0 digits with
      | none => none
      | some un =>
        if !neg ∧ 2 ^ 63 ≤ un then none
        else if neg ∧ 2 ^ 63 < un then none
        else some (if neg then -(un : Int) else (un : Int))

/-! ## `encoding/json`, encoding -/

/-- The lower-case hexadecimal digit of a value below 16. -/
def hexDigit (n : Nat) : Byte := (str "0123456789abcdef").getD n 0

/-- The escape that the encoder writes for an ASCII byte it does not copy. -/
def escapeByte (b : Byte) : Bytes :=
  if b.val = 0x5C ∨ b.val = 0x22 then [0x5C, b]
  else if b.val = 0x0A then [0x5C, 0x6E]
  else if b.val = 0x0D then [0x5C, 0x72]
  else if b.val = 0x09 then [0x5C, 0x74]
  else str "\\u00" ++ [hexDigit (b.val / 16), hexDigit (b.val % 16)]

/-- Whether the encoder copies an ASCII byte as it is: not a control byte, not
a quote or a backslash, and none of `<`, `>`, `&`, which `json.Marshal` escapes. -/
def isSafeByte (b : Byte) : Bool :=
  decide (0x20 ≤ b.val ∧ b.val ≠ 0x5C ∧ b.val ≠ 0x22 ∧ b.val ≠ 0x3C ∧ b.val ≠ 0x3E ∧ b.val ≠ 0x26)

/-- The text of a string between the quotes, as `json.Marshal` writes it, for a
string of at most `fuel` runes. A byte that is not part of a well-formed
encoding is written as the escape of U+FFFD, and U+2028 and U+2029 are escaped. -/
def encodeStringAux : Nat → GoString → Bytes
  | 0, _ => []
  | _ + 1, [] => []
  | fuel + 1, b :: rest =>
    if b.val < 0x80 then
      (if isSafeByte b then [b] else escapeByte b) ++ encodeStringAux fuel rest
    else
      let d := decodeRune (b :: rest)
      if d.1 = RuneError ∧ d.2 = 1 then str "\\ufffd" ++ encodeStringAux fuel rest
      else if d.1 = 0x2028 ∨ d.1 = 0x2029 then
        str "\\u202" ++ [hexDigit (d.1 % 16)] ++ encodeStringAux fuel ((b :: rest).drop d.2)
      else (b :: rest).take d.2 ++ encodeStringAux fuel ((b :: rest).drop d.2)

/-- A Go string as a JSON string literal, as `json.Marshal` writes it. -/
def encodeString (s : GoString) : Bytes :=
  [0x22] ++ encodeStringAux s.length s ++ [0x22]

/-! ## The asset record and its encoding -/

/-- The asset record (`AssetObject`). -/
structure AssetObject where
  Serialno : GoString
  Partno : GoString
  Owner : GoString
  deriving DecidableEq, Repr

/-- The function `json.Marshal` on an `AssetObject`: an object with the three
fields under their Go names, in the order of their declaration. A struct of
strings is always encodable, so the error result is `nil`. -/
def marshalAsset (ast : AssetObject) : Option Bytes × Option GoError :=
  (some (str "\x7b\"Serialno\":" ++ encodeString ast.Serialno ++ str ",\"Partno\":" ++
    encodeString ast.Partno ++ str ",\"Owner\":" ++ encodeString ast.Owner ++ str "\x7d"), none)

/-- The elements of a JSON array, separated by commas. -/
def joinElements : List Bytes → Bytes
  | [] => []
  | [x] => x
  | x :: y :: rest => x ++ str "," ++ joinElements (y :: rest)

/-- The function `json.Marshal` on a non-nil `[]AssetObject`: the array of the encoded records. -/
def marshalAssetList (tlist : List AssetObject) : Option Bytes :=
  some (str "[" ++ joinElements (tlist.map (fun ast => ((marshalAsset ast).1).getD [])) ++ str "]")

/-! ## `encoding/json`, decoding

`json.Unmarshal` first checks that the input is one well-formed JSON value and
then stores it in its target. The model reads the input once, which gives the
same results: it refuses exactly the inputs the check refuses, and a string
literal that passes the check is always unquoted successfully. -/

/-- Whether a byte is JSON white space. -/
def isSpace (b : Byte) : Bool :=
  decide (b.val = 0x20 ∨ b.val = 0x09 ∨ b.val = 0x0D ∨ b.val = 0x0A)

/-- The input after its leading white space. -/
def skipSpace : Bytes → Bytes
  | [] => []
  | b :: rest => if isSpace b then skipSpace rest else b :: rest

/-- Whether a byte is a decimal digit. -/
def isDigit (b : Byte) : Bool := decide (0x30 ≤ b.val ∧ b.val ≤ 0x39)

/-- The input after its leading decimal digits. -/
def skipDigits : Bytes → Bytes
  | [] => []
  | b :: rest => if isDigit b then skipDigits rest else b :: rest

/-- The value of a hexadecimal digit, in either case. -/
def hexVal (b : Byte) : Option Nat :=
  if 0x30 ≤ b.val ∧ b.val ≤ 0x39 then some (b.val - 0x30)
  else if 0x61 ≤ b.val ∧ b.val ≤ 0x66 then some (b.val - 0x61 + 10)
  else if 0x41 ≤ b.val ∧ b.val ≤ 0x46 then some (b.val - 0x41 + 10)
  else none

/-- The value of four hexadecimal digits at the head of the input, and the input after them. -/
def hex4 : Bytes → Option (Nat × Bytes)
  | a :: b :: c :: d :: rest =>
    match hexVal a, hexVal b, hexVal c, hexVal d with
    | some x, some y, some z, some w => some (x * 4096 + y * 256 + z * 16 + w, rest)
    | _, _, _, _ => none
  | _ => none

/-- The function `getu4`: the value of an escape `\uXXXX` at the head of the
input, and the input after it; `none` when the input does not start with one. -/
def getu4 : Bytes → Option (Nat × Bytes)
  | a :: b :: rest => if a.val = 0x5C ∧ b.val = 0x75 then hex4 rest else none
  | _ => none

/-- The content of a string literal, read from behind its opening quote up to
its closing quote, and the input after it (`unquote`). Escapes are replaced, a
pair of surrogate escapes becomes one rune, and bytes that are not well-formed
UTF-8 become U+FFFD. `none` for a literal that is not well formed: a control
byte, an unknown escape, a missing closing quote. -/
def scanString : Nat → Bytes → Option (GoString × Bytes)
  | 0, _ => none
  | _ + 1, [] => none
  | fuel + 1, c :: rest =>
    if c.val = 0x22 then some ([], rest)
    else if c.val = 0x5C then
      match rest with
      | [] => none
      | e :: rest1 =>
        if e.val = 0x22 ∨ e.val = 0x5C ∨ e.val = 0x2F then
          (scanString fuel rest1).map (fun r => (e :: r.1, r.2))
        else if e.val = 0x62 then (scanString fuel rest1).map (fun r => (0x08 :: r.1, r.2))
        else if e.val = 0x66 then (scanString fuel rest1).map (fun r => (0x0C :: r.1, r.2))
        else if e.val = 0x6E then (scanString fuel rest1).map (fun r => (0x0A :: r.1, r.2))
        else if e.val = 0x72 then (scanString fuel rest1).map (fun r => (0x0D :: r.1, r.2))
        else if e.val = 0x74 then (scanString fuel rest1).map (fun r => (0x09 :: r.1, r.2))
        else if e.val = 0x75 then
          match hex4 rest1 with
          | none => none
          | some (rr, rest2) =>
            if 0xD800 ≤ rr ∧ rr < 0xE000 then
              match getu4 rest2 with
              | some (rr1, rest3) =>
                if rr < 0xDC00 ∧ 0xDC00 ≤ rr1 ∧ rr1 < 0xE000 then
                  (scanString fuel rest3).map (fun r =>
                    (encodeRune ((rr - 0xD800) * 1024 + (rr1 - 0xDC00) + 0x10000) ++ r.1, r.2))
                else (scanString fuel rest2).map (fun r => (encodeRune RuneError ++ r.1, r.2))
              | none => (scanString fuel rest2).map (fun r => (encodeRune RuneError ++ r.1, r.2))
            else (scanString fuel rest2).map (fun r => (encodeRune rr ++ r.1, r.2))
        else none
    else if c.val < 0x20 then none
    else if c.val < 0x80 then (scanString fuel rest).map (fun r => (c :: r.1, r.2))
    else
      let d := decodeRune (c :: rest)
      (scanString fuel ((c :: rest).drop d.2)).map (fun r => (encodeRune d.1 ++ r.1, r.2))

/-- The input after the exponent part of a number, if there is one. -/
def scanExponent : Bytes → Option Bytes
  | [] => some []
  | c :: rest =>
    if c.val = 0x65 ∨ c.val = 0x45 then
      match rest with
      | [] => none
      | s :: rest1 =>
        let digits := if s.val = 0x2B ∨ s.val = 0x2D then rest1 else s :: rest1
        match digits with
        | [] => none
        | d :: rest2 => if isDigit d then some (skipDigits rest2) else none
    else some (c :: rest)

/-- The input after the fraction and exponent parts of a number, if there are any. -/
def scanFraction : Bytes → Option Bytes
  | [] => some []
  | c :: rest =>
    if c.val = 0x2E then
      match rest with
      | [] => none
      | d :: rest1 => if isDigit d then scanExponent (skipDigits rest1) else none
    else scanExponent (c :: rest)

/-- The input after a number literal at its head: an optional minus sign, an
integer part without a leading zero, an optional fraction, an optional exponent. -/
def scanNumber (s : Bytes) : Option Bytes :=
  let s1 := match s with
    | [] => []
    | c :: rest => if c.val = 0x2D then rest else c :: rest
  match s1 with
  | [] => none
  | c :: rest =>
    if c.val = 0x30 then scanFraction rest
    else if 0x31 ≤ c.val ∧ c.val ≤ 0x39 then scanFraction (skipDigits rest)
    else none

/-- The input after the given literal bytes, `none` when it does not start with them. -/
def scanLiteral : Bytes → Bytes → Option Bytes
  | [], s => some s
  | _ :: _, [] => none
  | l :: ls, c :: rest => if l = c then scanLiteral ls rest else none

/-- What the decoder needs to know of a JSON value: its kind, and the content of a string. -/
inductive JKind
  | null
  | bool
  | number
  | string (s : GoString)
  | array
  | object
  deriving DecidableEq, Repr

mutual

/-- The kind of the JSON value at the head of the input, and the input after
the value; `none` when there is no well-formed value. -/
def parseValue : Nat → Bytes → Option (JKind × Bytes)
  | 0, _ => none
  | _ + 1, [] => none
  | fuel + 1, c :: rest =>
    if c.val = 0x22 then
      (scanString (rest.length + 1) rest).map (fun r => (JKind.string r.1, r.2))
    else if c.val = 0x7B then
      match skipSpace rest with
      | [] => none
      | c1 :: rest1 =>
        if c1.val = 0x7D then some (JKind.object, rest1)
        else (parseMembers fuel (c1 :: rest1)).map (fun r => (JKind.object, r.2))
    else if c.val = 0x5B then
      match skipSpace rest with
      | [] => none
      | c1 :: rest1 =>
        if c1.val = 0x5D then some (JKind.array, rest1)
        else (parseElements fuel (c1 :: rest1)).map (fun r => (JKind.array, r))
    else if c.val = 0x74 then (scanLiteral (str "rue") rest).map (fun r => (JKind.bool, r))
    else if c.val = 0x66 then (scanLiteral (str "alse") rest).map (fun r => (JKind.bool, r))
    else if c.val = 0x6E then (scanLiteral (str "ull") rest).map (fun r => (JKind.null, r))
    else if c.val = 0x2D ∨ isDigit c then (scanNumber (c :: rest)).map (fun r => (JKind.number, r))
    else none

/-- The input after the elements of an array and its closing bracket, read from
the first byte of an element. -/
def parseElements : Nat → Bytes → Option Bytes
  | 0, _ => none
  | fuel + 1, s =>
    match parseValue fuel s with
    | none => none
    | some (_, rest) =>
      match skipSpace rest with
      | [] => none
      | c :: rest1 =>
        if c.val = 0x2C then parseElements fuel (skipSpace rest1)
        else if c.val = 0x5D then some rest1
        else none

/-- The members of an object, each with its unquoted name and the kind of its
value, and the input after the closing brace, read from the first byte of a member. -/
def parseMembers : Nat → Bytes → Option (List (GoString × JKind) × Bytes)
  | 0, _ => none
  | _ + 1, [] => none
  | fuel + 1, q :: rest =>
    if q.val = 0x22 then
      match scanString (rest.length + 1) rest with
      | none => none
      | some (key, rest1) =>
        match skipSpace rest1 with
        | [] => none
        | c :: rest2 =>
          if c.val = 0x3A then
            match parseValue fuel (skipSpace rest2) with
            | none => none
            | some (v, rest3) =>
              match skipSpace rest3 with
              | [] => none
              | c1 :: rest4 =>
                if c1.val = 0x2C then
                  (parseMembers fuel (skipSpace rest4)).map (fun r => ((key, v) :: r.1, r.2))
                else if c1.val = 0x7D then some ([(key, v)], rest4)
                else none
          else none
    else none

end

/-- The function `equalFoldRight` of `encoding/json`: whether a key is the field
name `s` up to the case of its letters, where the key may also write `s` as
U+017F and `k` as U+212A. The decoder selects the field of a key by this test
for a name with a letter `s` or `k`, and by `simpleLetterEqualFold` for a name
of other letters only, on which the two tests agree. No two field names of the
record match the same key, so the first field that matches is the field the
decoder selects. -/
def equalFoldRight : GoString → GoString → Bool
  | [], t => t.isEmpty
  | _ :: _, [] => false
  | sb :: s, tb :: t =>
    if tb.val < 0x80 then
      if sb = tb then equalFoldRight s t
      else
        let sbUpper := sb.val - sb.val / 32 % 2 * 32
        if 0x41 ≤ sbUpper ∧ sbUpper ≤ 0x5A ∧ sbUpper = tb.val - tb.val / 32 % 2 * 32 then
          equalFoldRight s t
        else false
    else
      match t with
      | t1 :: t' =>
        if (sb.val = 0x73 ∨ sb.val = 0x53) ∧ tb.val = 0xC5 ∧ t1.val = 0xBF then equalFoldRight s t'
        else
          match t' with
          | t2 :: t'' =>
            if (sb.val = 0x6B ∨ sb.val = 0x4B) ∧ tb.val = 0xE2 ∧ t1.val = 0x84 ∧ t2.val = 0xAA then
              equalFoldRight s t''
            else false
          | [] => false
      | [] => false

/-- Store one member of the object in the record, as the loop of the decoder
does: the field is selected by the name of the member, a string is stored,
`null` leaves the field as it is, a value of another kind is skipped and the
first such mismatch is kept as the error; a name that selects no field is skipped. -/
def storeMember (st : AssetObject × Option GoError) (m : GoString × JKind) :
    AssetObject × Option GoError :=
  let ar := st.1
  let saveError : String → Option GoError := fun kind =>
    match st.2 with
    | some err => some err
    | none => some (GoError.Lib (LibError.jsonUnmarshalType kind))
  let set : GoString → AssetObject := fun v =>
    if equalFoldRight (str "Serialno") m.1 then { ar with Serialno := v }
    else if equalFoldRight (str "Partno") m.1 then { ar with Partno := v }
    else { ar with Owner := v }
  if equalFoldRight (str "Serialno") m.1 ∨ equalFoldRight (str "Partno") m.1 ∨
      equalFoldRight (str "Owner") m.1 then
    match m.2 with
    | JKind.string v => (set v, st.2)
    | JKind.null => st
    | JKind.bool => (ar, saveError "bool")
    | JKind.number => (ar, saveError "number")
    | JKind.array => (ar, saveError "array")
    | JKind.object => (ar, saveError "object")
  else st

/-- The function `json.Unmarshal` into an empty `AssetObject`: the record and
the error result. An input that is not one well-formed JSON value is a syntax
error and leaves the record empty; an object fills the fields its members
name; `null` leaves the record empty without error; any other value is a type
error. The bound on the depth of the reading is never reached: it allows two
steps for every byte of the input. -/
def unmarshalAsset (data : Bytes) : AssetObject × Option GoError :=
  let ar : AssetObject := ⟨[], [], []⟩
  let fuel := 2 * data.length + 2
  let malformed : AssetObject × Option GoError := (ar, some (GoError.Lib LibError.jsonSyntax))
  match skipSpace data with
  | [] => malformed
  | c :: rest =>
    if c.val = 0x7B then
      match skipSpace rest with
      | [] => malformed
      | c1 :: rest1 =>
        if c1.val = 0x7D then
          if (skipSpace rest1).isEmpty then (ar, none) else malformed
        else
          match parseMembers fuel (c1 :: rest1) with
          | none => malformed
          | some (members, rest2) =>
            if (skipSpace rest2).isEmpty then members.foldl storeMember (ar, none)
            else malformed
    else
      match parseValue fuel (c :: rest) with
      | none => malformed
      | some (kind, rest1) =>
        if (skipSpace rest1).isEmpty then
          match kind with
          | JKind.null => (ar, none)
          | JKind.bool => (ar, some (GoError.Lib (LibError.jsonUnmarshalType "bool")))
          | JKind.number => (ar, some (GoError.Lib (LibError.jsonUnmarshalType "number")))
          | JKind.string _ => (ar, some (GoError.Lib (LibError.jsonUnmarshalType "string")))
          | JKind.array => (ar, some (GoError.Lib (LibError.jsonUnmarshalType "array")))
          | JKind.object => (ar, some (GoError.Lib (LibError.jsonUnmarshalType "object")))
        else malformed

/-! ## The chaincode -/

/-- The function `strconv.Itoa` on a number that is not negative. -/
def Itoa (n : Nat) : GoString := str (Nat.repr n)

/-- The table names of the application (`aucTables`). -/
def aucTables : List GoString := [str "AssetTable", str "ContractHistory"]

/-- The number of key columns of a table (`GetNumberOfKeys`): the entry of the
name in `TableMap`, and 0, the zero value of the map, for any other name. -/
def GetNumberOfKeys (tname : GoString) : Nat :=
  if tname = str "AssetTable" then 1
  else if tname = str "ContractHistory" then 3
  else 0

/-- The key column definitions that the loop of `InitLedger` builds: `nKeys`
string key columns named `keyName0`, `keyName1`, ... -/
def keyColumnDefs (nKeys : Nat) : List ColumnDefinition :=
  (List.range nKeys).map (fun i => ⟨str "keyName" ++ Itoa i, ColumnDefinition_Type.STRING, true⟩)

/-- The table creation function (`InitLedger`). -/
def InitLedger (stub : ChaincodeStub) (tableName : GoString) : ChaincodeStub × Option GoError :=
  let nKeys := GetNumberOfKeys tableName
  if nKeys < 1 then
    (stub, some (GoError.New (str "Auction_Application: Failed creating Table " ++ tableName)))
  else
    let columnDefsForTbl := keyColumnDefs nKeys
    let columnLastTblDef : ColumnDefinition := ⟨str "Details", ColumnDefinition_Type.BYTES, false⟩
    let columnDefsForTbl := columnDefsForTbl ++ [columnLastTblDef]
    match CreateTable stub tableName columnDefsForTbl with
    | (stub1, some _) =>
      (stub1, some (GoError.New (str "Auction_Application: Failed creating Table " ++ tableName)))
    | (stub1, none) => (stub1, none)

/-- The loop of `Init` over the table names: drop the table, create it, and
stop at the first failure. -/
def InitTables (stub : ChaincodeStub) : List GoString → ChaincodeStub × Option GoError
  | [] => (stub, none)
  | val :: vals =>
    match DeleteTable stub val with
    | (stub1, some _) =>
      (stub1, some (GoError.New (str "Init(): DeleteTable of " ++ val ++ str "  Failed ")))
    | (stub1, none) =>
      match InitLedger stub1 val with
      | (stub2, some _) =>
        (stub2, some (GoError.New (str "Init(): InitLedger of " ++ val ++ str "  Failed ")))
      | (stub2, none) => InitTables stub2 vals

/-- The initialisation of the chaincode (`Init`). -/
def Init (stub : ChaincodeStub) (_function : GoString) (_args : List GoString) :
    ChaincodeStub × Option Bytes × Option GoError :=
  match InitTables stub aucTables with
  | (stub1, some err) => (stub1, none, some err)
  | (stub1, none) =>
    match PutState stub1 (str "version") (Itoa 23) with
    | (stub2, some err) => (stub2, none, some err)
    | (stub2, none) => (stub2, some (str "Init(): Initialization Complete"), none)

/-- The construction of an asset from the arguments (`CreateAsset`). -/
def CreateAsset (args : List GoString) : AssetObject × Option GoError :=
  let myAsset : AssetObject := ⟨[], [], []⟩
  match args with
  | [a0, a1, a2] =>
    match Atoi a0 with
    | none =>
      (myAsset, some (GoError.New (str "CreateAssetbject(): SerialNo should be an integer create failed. ")))
    | some _ => (⟨a0, a1, a2⟩, none)
  | _ =>
    (myAsset, some (GoError.New (str "CreateAssetObject(): Incorrect number of arguments. Expecting 3 ")))

/-- The encoding of an asset (`ARtoJSON`). -/
def ARtoJSON (ast : AssetObject) : Option Bytes × Option GoError :=
  match marshalAsset ast with
  | (_, some err) => (none, some err)
  | (ajson, none) => (ajson, none)

/-- The string columns that a loop `for i := 0; i < n; i++` builds from `keys[i]`;
`none` when an index is out of range. -/
def stringColumns : Nat → List GoString → Option (List Column)
  | 0, _ => some []
  | _ + 1, [] => none
  | n + 1, k :: ks =>
    match stringColumns n ks with
    | some cols => some (Column.String_ k :: cols)
    | none => none

/-- The write path (`UpdateLedger`): insert the row of the keys and the payload.
The table name is taken to contain no `%`, as the names of the catalog do. -/
def UpdateLedger (stub : ChaincodeStub) (tableName : GoString) (keys : List GoString)
    (args : Bytes) : Option (ChaincodeStub × Option GoError) :=
  let nKeys := GetNumberOfKeys tableName
  match stringColumns nKeys keys with
  | none => none
  | some columns =>
    let lastCol := Column.Bytes args
    let columns := columns ++ [lastCol]
    let row : Row := ⟨columns⟩
    match InsertRow stub tableName row with
    | (stub1, _, some err) =>
      some (stub1, some (GoError.Errorf
        (str "UpdateLedger: InsertRow into " ++ tableName ++ str " Table operation failed. ") err))
    | (stub1, ok, none) =>
      if !ok then
        match keys[0]? with
        | none => none
        | some k0 =>
          some (stub1, some (GoError.New (str "UpdateLedger: InsertRow into " ++ tableName ++
            str " Table failed. Row with given key " ++ k0 ++ str " already exists")))
      else some (stub1, none)

/-- The dual-table write (`PostAsset`). -/
def PostAsset (stub : ChaincodeStub) (args : List GoString) :
    Option (ChaincodeStub × Option Bytes × Option GoError) :=
  match CreateAsset args with
  | (_, some err) => some (stub, none, some err)
  | (assetObject, none) =>
    match ARtoJSON assetObject with
    | (_, some _) =>
      match args[1]? with
      | none => none
      | some a1 =>
        some (stub, none,
          some (GoError.New (str "PostItem(): Failed Cannot create object buffer for write : " ++ a1)))
    | (buff, none) =>
      match args[0]? with
      | none => none
      | some a0 =>
        let keys := [a0]
        match UpdateLedger stub (str "AssetTable") keys (buff.getD []) with
        | none => none
        | some (stub1, some err) => some (stub1, buff, some err)
        | some (stub1, none) =>
          let keys1 := [str "2016", assetObject.Serialno, str "random"]
          match UpdateLedger stub1 (str "ContractHistory") keys1 (buff.getD []) with
          | none => none
          | some (stub2, some err) => some (stub2, buff, some err)
          | some (stub2, none) => some (stub2, none, none)

/-- The point read path (`QueryLedger`). -/
def QueryLedger (stub : ChaincodeStub) (tableName : GoString) (args : List GoString) :
    Option (Option Bytes × Option GoError) :=
  let nCol := GetNumberOfKeys tableName
  match stringColumns nCol args with
  | none => none
  | some columns =>
    match GetRow stub tableName columns with
    | (_, some _) => some (none, some (GoError.New (str "unable to query row!")))
    | (row, none) =>
      if row.Columns.length = 0 then
        match args[0]? with
        | none => none
        | some a0 =>
          some (none, some (GoError.New (str "\x7b\"Error\":\"Failed retrieving data " ++ a0 ++ str ". \"\x7d")))
      else
        match row.Columns[nCol]? with
        | none => none
        | some col => some (col.GetBytes, none)

/-- The point read of an asset (`GetAsset`). -/
def GetAsset (stub : ChaincodeStub) (args : List GoString) :
    Option (Option Bytes × Option GoError) :=
  match QueryLedger stub (str "AssetTable") args with
  | none => none
  | some (_, some _) =>
    match args[0]? with
    | none => none
    | some a0 =>
      some (none, some (GoError.New (str "\x7b\"Error\":\"Failed to get  Object Data for " ++ a0 ++ str "\"\x7d")))
  | some (none, none) =>
    match args[0]? with
    | none => none
    | some a0 =>
      some (none, some (GoError.New
        (str "\x7b\"Error\":\"Incomplete information about the key for " ++ a0 ++ str "\"\x7d")))
  | some (some Avalbytes, none) => some (some Avalbytes, none)

/-- The point read of a history entry (`GetHistory`). -/
def GetHistory (stub : ChaincodeStub) (args : List GoString) :
    Option (Option Bytes × Option GoError) :=
  match QueryLedger stub (str "ContractHistory") args with
  | none => none
  | some (_, some _) =>
    match args[0]? with
    | none => none
    | some a0 =>
      some (none, some (GoError.New (str "\x7b\"Error\":\"Failed to get  Object Data for " ++ a0 ++ str "\"\x7d")))
  | some (none, none) =>
    match args[0]? with
    | none => none
    | some a0 =>
      some (none, some (GoError.New
        (str "\x7b\"Error\":\"Incomplete information about the key for " ++ a0 ++ str "\"\x7d")))
  | some (some Avalbytes, none) => some (some Avalbytes, none)

/-- The loop of `GetList` that receives from the row channel until it is closed,
appending each row to `rows`. -/
def drain (rows : List Row) : List Row → List Row
  | [] => rows
  | row :: rowChannel => drain (rows ++ [row]) rowChannel

/-- The range read path (`GetList`). -/
def GetList (stub : ChaincodeStub) (tableName : GoString) (args : List GoString) :
    List Row × Option GoError :=
  let nCol := args.length
  if nCol < 1 then
    ([], some (GoError.New (str "GetList failed. Must include at least key values")))
  else
    let columns := args.map Column.String_
    match GetRows stub tableName columns with
    | (_, some err) => ([], some (GoError.Errorf (str "GetList operation failed. ") err))
    | (rowChannel, none) => (drain [] rowChannel, none)

/-- The decoding of an asset (`JSONtoAR`): the record and the error of `json.Unmarshal`. -/
def JSONtoAR (data : Bytes) : AssetObject × Option GoError :=
  unmarshalAsset data

/-- The loop of `GetListOfContractHistory` over the rows: decode the payload
column of each row, and stop at the first row that does not decode. `none` is
the panic of an index out of range. -/
def decodeRows (nCol : Nat) : List Row → Option (List AssetObject × Option GoError)
  | [] => some ([], none)
  | row :: rows =>
    match row.Columns[nCol]? with
    | none => none
    | some col =>
      let ts := col.GetBytes
      match JSONtoAR (ts.getD []) with
      | (_, some err) => some ([], some err)
      | (ar, none) =>
        match decodeRows nCol rows with
        | none => none
        | some (_, some err) => some ([], some err)
        | some (tlist, none) => some (ar :: tlist, none)

/-- The scan of the history table (`GetListOfContractHistory`). -/
def GetListOfContractHistory (stub : ChaincodeStub) (_function : GoString)
    (args : List GoString) : Option (Option Bytes × Option GoError) :=
  match GetList stub (str "ContractHistory") args with
  | (_, some err) =>
    some (none, some (GoError.Errorf
      (str "GetListOfOpenAucs operation failed. Error marshaling JSON: ") err))
  | (rows, none) =>
    let nCol := GetNumberOfKeys (str "ContractHistory")
    match decodeRows nCol rows with
    | none => none
    | some (_, some err) =>
      some (none, some (GoError.Errorf (str "GetListOfOpenAucs() operation failed. ") err))
    | some (tlist, none) => some (marshalAssetList tlist, none)

/-! ## Ledger states of the application -/

/-- The schema `InitLedger` gives a table: the key columns of the catalog
followed by the payload column `Details`. -/
def catalogSchema (tableName : GoString) : List ColumnDefinition :=
  keyColumnDefs (GetNumberOfKeys tableName) ++
    [⟨str "Details", ColumnDefinition_Type.BYTES, false⟩]

/-- The table `tableName` exists in the ledger with the schema `InitLedger` gives it. -/
def HasCatalogTable (stub : ChaincodeStub) (tableName : GoString) : Prop :=
  (getTable stub tableName).map (fun t => t.ColumnDefinitions) = some (catalogSchema tableName)

instance (stub : ChaincodeStub) (tableName : GoString) : Decidable (HasCatalogTable stub tableName) := by
  unfold HasCatalogTable; infer_instance

/-- The row `UpdateLedger` builds from keys and a payload. -/
def ledgerRow (keys : List GoString) (payload : Bytes) : Row :=
  ⟨keys.map Column.String_ ++ [Column.Bytes payload]⟩

/-- The payload `PostAsset` writes for an asset. -/
def assetPayload (s p o : GoString) : Bytes :=
  ((ARtoJSON ⟨s, p, o⟩).1).getD []

/-- The key of the history entry that `PostAsset` writes for a serial number. -/
def historyKey (s : GoString) : List GoString := [str "2016", s, str "random"]

/-- The ledger states the application reaches: a successful `Init` from any
ledger, followed by calls of `PostAsset` with any arguments. -/
inductive Reachable : ChaincodeStub → Prop
  | init (stub0 stub : ChaincodeStub) (function : GoString) (args : List GoString)
      (res : Option Bytes) :
      Init stub0 function args = (stub, res, none) → Reachable stub
  | post (stub stub1 : ChaincodeStub) (args : List GoString) (res : Option Bytes)
      (err : Option GoError) :
      Reachable stub → PostAsset stub args = some (stub1, res, err) → Reachable stub1

/-- The ledger after `Init` on an empty ledger. -/
def freshLedger : ChaincodeStub := (Init ⟨[], []⟩ [] []).1

/-- The rows of `AssetTable` for a list of posted assets, each a serial number and a payload. -/
def assetRows (l : List (GoString × Bytes)) : List Row :=
  l.map (fun x => ledgerRow [x.1] x.2)

/-- The rows of `ContractHistory` for a list of posted assets. -/
def historyRows (l : List (GoString × Bytes)) : List Row :=
  l.map (fun x => ledgerRow (historyKey x.1) x.2)

/-- The two tables hold the same posted assets: both exist with their catalog
schema, and row by row the asset table and the history table carry the same
serial number and the same payload; no serial number occurs twice, and every
serial number is an integer. -/
def Consistent (stub : ChaincodeStub) : Prop :=
  ∃ l : List (GoString × Bytes),
    getTable stub (str "AssetTable") =
      some ⟨str "AssetTable", catalogSchema (str "AssetTable"), assetRows l⟩ ∧
    getTable stub (str "ContractHistory") =
      some ⟨str "ContractHistory", catalogSchema (str "ContractHistory"), historyRows l⟩ ∧
    (l.map Prod.fst).Nodup ∧ ∀ x ∈ l, Atoi x.1 ≠ none

/-- The tables after `Init` has dropped and created the table `T`. -/
def resetTable (T : GoString) (ts : List Table) : List Table :=
  ts.filter (fun t => !decide (t.Name = T)) ++ [⟨T, catalogSchema T, []⟩]


/-- The ledger after `PostAsset("42","WIDGET","alice")` on the ledger after `Init`. -/
def postedLedger : ChaincodeStub :=
  appendRow (appendRow freshLedger (str "AssetTable")
      (ledgerRow [str "42"] (assetPayload (str "42") (str "WIDGET") (str "alice"))))
    (str "ContractHistory")
    (ledgerRow (historyKey (str "42")) (assetPayload (str "42") (str "WIDGET") (str "alice")))


/-- The ledger `postedLedger` with one more history entry under the prefix
`["2016", "42"]`, written by `UpdateLedger` with a payload that is not JSON. -/
def mixedLedger : ChaincodeStub :=
  appendRow postedLedger (str "ContractHistory")
    (ledgerRow [str "2016", str "42", str "manual"] (str "oops"))

/-- The payload that `GetListOfContractHistory` decodes for a row: the bytes of
column 3, empty when the column is not a bytes column. -/
def rowPayload (row : Row) : Bytes :=
  ((row.Columns[GetNumberOfKeys (str "ContractHistory")]?).bind Column.GetBytes).getD []

/-! ## Lemmas on the ledger -/

theorem catalogSchema_asset : catalogSchema (str "AssetTable") =
    [⟨str "keyName0", ColumnDefinition_Type.STRING, true⟩,
     ⟨str "Details", ColumnDefinition_Type.BYTES, false⟩] := by decide

theorem catalogSchema_history : catalogSchema (str "ContractHistory") =
    [⟨str "keyName0", ColumnDefinition_Type.STRING, true⟩,
     ⟨str "keyName1", ColumnDefinition_Type.STRING, true⟩,
     ⟨str "keyName2", ColumnDefinition_Type.STRING, true⟩,
     ⟨str "Details", ColumnDefinition_Type.BYTES, false⟩] := by decide

theorem find_updateTable_same (T : GoString) (f : Table → Table) (hf : ∀ t, (f t).Name = t.Name)
    (ts : List Table) :
    (updateTable T f ts).find? (fun t => decide (t.Name = T)) =
      (ts.find? (fun t => decide (t.Name = T))).map f := by
  induction ts with
  | nil => simp [updateTable]
  | cons t ts ih =>
    by_cases h : t.Name = T
    · simp [updateTable, h, List.find?_cons, hf]
    · simp [updateTable, h, List.find?_cons, ih]

theorem find_updateTable_other (T T1 : GoString) (hT : T1 ≠ T) (f : Table → Table)
    (hf : ∀ t, (f t).Name = t.Name) (ts : List Table) :
    (updateTable T f ts).find? (fun t => decide (t.Name = T1)) =
      ts.find? (fun t => decide (t.Name = T1)) := by
  induction ts with
  | nil => simp [updateTable]
  | cons t ts ih =>
    by_cases h : t.Name = T
    · have h1 : ¬ t.Name = T1 := fun h2 => hT (h2.symm.trans h)
      have h2 : ¬ (f t).Name = T1 := by rw [hf]; exact h1
      simp only [updateTable, h, if_true, List.find?_cons, h2, decide_False]
      rw [← h] at *
      simp [h1]
    · have e : updateTable T f (t :: ts) = t :: updateTable T f ts := by
        simp [updateTable, h]
      rw [e, List.find?_cons, List.find?_cons, ih]

theorem getTable_appendRow_same {stub : ChaincodeStub} {T : GoString} {row : Row} :
    getTable (appendRow stub T row) T =
      (getTable stub T).map (fun t => { t with Rows := t.Rows ++ [row] }) := by
  unfold getTable appendRow
  exact find_updateTable_same T (fun t => { t with Rows := t.Rows ++ [row] }) (fun _ => rfl)
    stub.tables

theorem getTable_appendRow_other {stub : ChaincodeStub} {T T1 : GoString} {row : Row}
    (hT : T1 ≠ T) : getTable (appendRow stub T row) T1 = getTable stub T1 := by
  unfold getTable appendRow
  exact find_updateTable_other T T1 hT (fun t => { t with Rows := t.Rows ++ [row] })
    (fun _ => rfl) stub.tables

/-- What a successful insert does: the table exists, the row fits its schema,
no row has its key, and the row is appended to the table. -/
theorem InsertRow_inserted {stub stub1 : ChaincodeStub} {T : GoString} {row : Row}
    {err : Option GoError} (h : InsertRow stub T row = (stub1, true, err)) :
    ∃ t key, getTable stub T = some t ∧
      getKeyAndVerifyRow t.ColumnDefinitions row.Columns = some key ∧
      t.Rows.any (rowHasKey t.ColumnDefinitions key) = false ∧
      stub1 = appendRow stub T row ∧ err = none := by
  unfold InsertRow at h
  cases ht : getTable stub T with
  | none => simp [ht] at h
  | some t =>
    simp only [ht] at h
    cases hk : getKeyAndVerifyRow t.ColumnDefinitions row.Columns with
    | none => simp [hk] at h
    | some key =>
      simp only [hk] at h
      by_cases ha : t.Rows.any (rowHasKey t.ColumnDefinitions key) = true
      · simp [ha] at h
      · simp only [ha] at h
        simp only [Bool.false_eq_true, if_false, Prod.mk.injEq, true_and] at h
        refine ⟨t, key, rfl, hk, by simpa using ha, h.1.symm, h.2.symm⟩

/-- An insert that does not insert leaves the ledger as it was. -/
theorem InsertRow_not_inserted {stub stub1 : ChaincodeStub} {T : GoString} {row : Row}
    {err : Option GoError} (h : InsertRow stub T row = (stub1, false, err)) : stub1 = stub := by
  unfold InsertRow at h
  cases ht : getTable stub T with
  | none => simp [ht] at h; exact h.1.symm
  | some t =>
    simp only [ht] at h
    cases hk : getKeyAndVerifyRow t.ColumnDefinitions row.Columns with
    | none => simp [hk] at h; exact h.1.symm
    | some key =>
      simp only [hk] at h
      by_cases ha : t.Rows.any (rowHasKey t.ColumnDefinitions key) = true
      · simp [ha] at h; exact h.1.symm
      · simp [ha] at h

/-- An insert reports an error only when it does not insert. -/
theorem InsertRow_error {stub stub1 : ChaincodeStub} {T : GoString} {row : Row} {ok : Bool}
    {e : GoError} (h : InsertRow stub T row = (stub1, ok, some e)) : ok = false := by
  cases ok with
  | false => rfl
  | true =>
    obtain ⟨_, _, _, _, _, _, h5⟩ := InsertRow_inserted h
    cases h5

theorem stringColumns_length (K : List GoString) :
    stringColumns K.length K = some (K.map Column.String_) := by
  induction K with
  | nil => rfl
  | cons k ks ih => simp [stringColumns, ih]

/-- The row of a write to a catalog table has the keys of the write as its key. -/
theorem verify_catalog {T : GoString} {K : List GoString} (P : Bytes) (hT : T ∈ aucTables)
    (hK : K.length = GetNumberOfKeys T) :
    getKeyAndVerifyRow (catalogSchema T) (ledgerRow K P).Columns =
      some (K.map Column.String_) := by
  simp only [aucTables, List.mem_cons, List.mem_singleton, List.not_mem_nil, or_false] at hT
  rcases hT with rfl | rfl
  · have h1 : GetNumberOfKeys (str "AssetTable") = 1 := by decide
    rw [h1] at hK
    match K, hK with
    | [k], _ => simp [catalogSchema_asset, ledgerRow, getKeyAndVerifyRow, columnHasType]
  · have h1 : GetNumberOfKeys (str "ContractHistory") = 3 := by decide
    rw [h1] at hK
    match K, hK with
    | [a, b, c], _ => simp [catalogSchema_history, ledgerRow, getKeyAndVerifyRow, columnHasType]

/-- A write that succeeds is an insert that inserted. -/
theorem UpdateLedger_success {stub stub1 : ChaincodeStub} {T : GoString} {K : List GoString}
    {P : Bytes} (hK : K.length = GetNumberOfKeys T)
    (h : UpdateLedger stub T K P = some (stub1, none)) :
    InsertRow stub T (ledgerRow K P) = (stub1, true, none) := by
  simp only [UpdateLedger, ← hK, stringColumns_length] at h
  unfold ledgerRow
  rcases hi : InsertRow stub T ⟨K.map Column.String_ ++ [Column.Bytes P]⟩ with ⟨s1, ok, err⟩
  rw [hi] at h
  cases err with
  | some e => simp at h
  | none =>
    cases ok with
    | false =>
      simp only [Bool.not_false, if_true] at h
      cases hk0 : K[0]? with
      | none => simp [hk0] at h
      | some k0 => simp [hk0] at h
    | true =>
      simp only [Bool.not_true, Bool.false_eq_true, if_false, Option.some.injEq,
        Prod.mk.injEq, and_true] at h
      rw [h]

/-- A write that fails leaves the ledger as it was. -/
theorem UpdateLedger_failure {stub stub1 : ChaincodeStub} {T : GoString} {K : List GoString}
    {P : Bytes} {e : GoError} (h : UpdateLedger stub T K P = some (stub1, some e)) :
    stub1 = stub := by
  unfold UpdateLedger at h
  cases hc : stringColumns (GetNumberOfKeys T) K with
  | none => simp [hc] at h
  | some cols =>
    simp only [hc] at h
    rcases hi : InsertRow stub T ⟨cols ++ [Column.Bytes P]⟩ with ⟨s1, ok, err⟩
    rw [hi] at h
    cases err with
    | some e1 =>
      have hok := InsertRow_error hi
      subst hok
      have := InsertRow_not_inserted hi
      simp only [Option.some.injEq, Prod.mk.injEq] at h
      rw [← h.1]; exact this
    | none =>
      cases ok with
      | false =>
        have := InsertRow_not_inserted hi
        simp only [Bool.not_false, if_true] at h
        cases hk0 : K[0]? with
        | none => simp [hk0] at h
        | some k0 =>
          simp only [hk0, Option.some.injEq, Prod.mk.injEq] at h
          rw [← h.1]; exact this
      | true => simp at h

/-- A write to a table that holds a row of the same key is refused with the
duplicate-key error. -/
theorem UpdateLedger_duplicate {stub : ChaincodeStub} {T : GoString} {K : List GoString}
    {P : Bytes} {t : Table} (hT : T ∈ aucTables) (hK : K.length = GetNumberOfKeys T)
    (ht : getTable stub T = some t) (hs : t.ColumnDefinitions = catalogSchema T)
    (hd : t.Rows.any (rowHasKey (catalogSchema T) (K.map Column.String_)) = true) :
    UpdateLedger stub T K P = some (stub, some (GoError.New
      (str "UpdateLedger: InsertRow into " ++ T ++ str " Table failed. Row with given key " ++
        K.headD [] ++ str " already exists"))) := by
  have hv := verify_catalog P hT hK
  have hi : InsertRow stub T ⟨K.map Column.String_ ++ [Column.Bytes P]⟩ = (stub, false, none) := by
    unfold InsertRow
    unfold ledgerRow at hv
    simp only [ht, hs, hv, hd, if_true]
  simp only [UpdateLedger, ← hK, stringColumns_length, hi]
  have hne : K ≠ [] := by
    intro h0
    subst h0
    simp only [aucTables, List.mem_cons, List.mem_singleton, List.not_mem_nil, or_false] at hT
    rcases hT with rfl | rfl <;> revert hK <;> decide
  match K, hne with
  | k :: ks, _ => simp

theorem find_append_new {defs : List ColumnDefinition} {key : List Column} {rows : List Row}
    {row : Row} (hnone : rows.any (rowHasKey defs key) = false)
    (hrow : rowHasKey defs key row = true) :
    (rows ++ [row]).find? (rowHasKey defs key) = some row := by
  have h0 : rows.find? (rowHasKey defs key) = none := by
    rw [List.find?_eq_none]
    intro x hx
    have := List.any_eq_false.mp hnone x hx
    simpa using this
  rw [List.find?_append, h0]
  simp [List.find?_cons, hrow]

/-- A point read of a catalog table whose row of the key is the row of a write
returns the payload of that write. -/
theorem QueryLedger_found {stub : ChaincodeStub} {T : GoString} {K : List GoString} {P : Bytes}
    {t : Table} (hK : K.length = GetNumberOfKeys T)
    (ht : getTable stub T = some t)
    (hf : t.Rows.find? (rowHasKey t.ColumnDefinitions (K.map Column.String_)) =
      some (ledgerRow K P)) :
    QueryLedger stub T K = some (some P, none) := by
  have hg : GetRow stub T (K.map Column.String_) = (ledgerRow K P, none) := by
    unfold GetRow
    simp only [ht, hf]
  have hidx : (ledgerRow K P).Columns[K.length]? = some (Column.Bytes P) := by
    unfold ledgerRow
    rw [List.getElem?_append_right (by simp)]
    simp
  have hlen : (ledgerRow K P).Columns.length ≠ 0 := by
    unfold ledgerRow
    simp
  simp only [QueryLedger, ← hK, stringColumns_length, hg, hlen, if_false, hidx, Column.GetBytes]

/-- The state after a successful write to a catalog table: the row of the write
is the row read under its key. -/
theorem UpdateLedger_written {stub stub1 : ChaincodeStub} {T : GoString} {K : List GoString}
    {P : Bytes} (hT : T ∈ aucTables) (hK : K.length = GetNumberOfKeys T)
    (hS : HasCatalogTable stub T) (h : UpdateLedger stub T K P = some (stub1, none)) :
    ∃ t, getTable stub T = some t ∧ t.ColumnDefinitions = catalogSchema T ∧
      t.Rows.any (rowHasKey (catalogSchema T) (K.map Column.String_)) = false ∧
      stub1 = appendRow stub T (ledgerRow K P) ∧
      getTable stub1 T = some { t with Rows := t.Rows ++ [ledgerRow K P] } ∧
      (t.Rows ++ [ledgerRow K P]).find? (rowHasKey (catalogSchema T) (K.map Column.String_)) =
        some (ledgerRow K P) := by
  obtain ⟨t, key, ht, hkey, hany, hst, _⟩ := InsertRow_inserted (UpdateLedger_success hK h)
  have hs : t.ColumnDefinitions = catalogSchema T := by
    unfold HasCatalogTable at hS
    rw [ht] at hS
    simpa using hS
  have hv := verify_catalog P hT hK
  rw [hs, hv] at hkey
  have hkey : key = K.map Column.String_ := by
    injection hkey with hkey; exact hkey.symm
  subst hkey
  rw [hs] at hany
  refine ⟨t, ht, hs, hany, hst, ?_, ?_⟩
  · rw [hst, getTable_appendRow_same, ht]; rfl
  · apply find_append_new hany
    unfold rowHasKey
    simp [hv]

/-! ## Insert-once -/

/-- C1, insert-once. For a catalog table `T` that exists with its catalog schema,
a key tuple `K` of the arity of `T` and payloads `P1`, `P2`: when
`UpdateLedger T K P1` succeeds, a following `UpdateLedger T K P2` returns the
duplicate-key error and leaves the ledger as it was, and the row stored under
`K` is the row of `P1`, which `QueryLedger` reads back. -/
theorem insert_once (stub stub1 : ChaincodeStub) (T : GoString) (K : List GoString)
    (P1 P2 : Bytes) (hT : T ∈ aucTables) (hK : K.length = GetNumberOfKeys T)
    (hS : HasCatalogTable stub T) (h1 : UpdateLedger stub T K P1 = some (stub1, none)) :
    UpdateLedger stub1 T K P2 = some (stub1, some (GoError.New
      (str "UpdateLedger: InsertRow into " ++ T ++ str " Table failed. Row with given key " ++
        K.headD [] ++ str " already exists"))) ∧
    GetRow stub1 T (K.map Column.String_) = (ledgerRow K P1, none) ∧
    QueryLedger stub1 T K = some (some P1, none) := by
  obtain ⟨t, ht, hs, hany, hst, ht1, hfind⟩ := UpdateLedger_written hT hK hS h1
  refine ⟨?_, ?_, ?_⟩
  · apply UpdateLedger_duplicate hT hK ht1 hs
    have := List.find?_isSome.mp (by rw [hfind]; rfl :
      ((t.Rows ++ [ledgerRow K P1]).find? (rowHasKey (catalogSchema T)
        (K.map Column.String_))).isSome = true)
    obtain ⟨x, hx, hx1⟩ := this
    exact List.any_eq_true.mpr ⟨x, hx, hx1⟩
  · unfold GetRow
    simp only [ht1, hs, hfind]
  · apply QueryLedger_found hK ht1
    simp only [hs, hfind]

/-- Witness of `insert_once`: two writes under the key `42` of `AssetTable`. -/
theorem insert_once_witness :
    UpdateLedger (appendRow freshLedger (str "AssetTable") (ledgerRow [str "42"] (str "first")))
        (str "AssetTable") [str "42"] (str "second") =
      some (appendRow freshLedger (str "AssetTable") (ledgerRow [str "42"] (str "first")),
        some (GoError.New (str "UpdateLedger: InsertRow into " ++ str "AssetTable" ++
          str " Table failed. Row with given key " ++ [str "42"].headD [] ++
          str " already exists"))) ∧
    GetRow (appendRow freshLedger (str "AssetTable") (ledgerRow [str "42"] (str "first")))
        (str "AssetTable") ([str "42"].map Column.String_) =
      (ledgerRow [str "42"] (str "first"), none) ∧
    QueryLedger (appendRow freshLedger (str "AssetTable") (ledgerRow [str "42"] (str "first")))
        (str "AssetTable") [str "42"] = some (some (str "first"), none) :=
  insert_once freshLedger _ (str "AssetTable") [str "42"] (str "first") (str "second")
    (by decide) (by decide) (by decide) (by decide)

/-! ## `PostAsset` and `Init` -/

theorem PostAsset_valid (stub : ChaincodeStub) (s p o : GoString) (hs : Atoi s ≠ none) :
    PostAsset stub [s, p, o] =
      match UpdateLedger stub (str "AssetTable") [s] (assetPayload s p o) with
      | none => none
      | some (stub1, some err) => some (stub1, some (assetPayload s p o), some err)
      | some (stub1, none) =>
        match UpdateLedger stub1 (str "ContractHistory") (historyKey s) (assetPayload s p o) with
        | none => none
        | some (stub2, some err) => some (stub2, some (assetPayload s p o), some err)
        | some (stub2, none) => some (stub2, none, none) := by
  cases ha : Atoi s with
  | none => exact absurd ha hs
  | some n =>
    simp only [PostAsset, CreateAsset, ha, ARtoJSON, marshalAsset, assetPayload, historyKey]
    simp

theorem PostAsset_invalid (stub : ChaincodeStub) (args : List GoString)
    (h : args.length ≠ 3 ∨ ∃ a0, args[0]? = some a0 ∧ Atoi a0 = none) :
    ∃ err, PostAsset stub args = some (stub, none, some err) := by
  unfold PostAsset
  have : ∃ ar err, CreateAsset args = (ar, some err) := by
    unfold CreateAsset
    match args, h with
    | [], _ => exact ⟨_, _, rfl⟩
    | [_], _ => exact ⟨_, _, rfl⟩
    | [_, _], _ => exact ⟨_, _, rfl⟩
    | _ :: _ :: _ :: _ :: _, _ => exact ⟨_, _, rfl⟩
    | [a0, a1, a2], h =>
      rcases h with h | ⟨b, hb, hb1⟩
      · simp at h
      · simp at hb
        subst hb
        simp only [hb1]
        exact ⟨_, _, rfl⟩
  obtain ⟨ar, err, hc⟩ := this
  rw [hc]
  exact ⟨err, rfl⟩

theorem CreateAsset_cases (args : List GoString) :
    (∃ s p o, args = [s, p, o] ∧ Atoi s ≠ none) ∨
      (args.length ≠ 3 ∨ ∃ a0, args[0]? = some a0 ∧ Atoi a0 = none) := by
  match args with
  | [] => right; left; simp
  | [_] => right; left; simp
  | [_, _] => right; left; simp
  | _ :: _ :: _ :: _ :: _ => right; left; simp
  | [a0, a1, a2] =>
    by_cases h : Atoi a0 = none
    · right; right; exact ⟨a0, by simp, h⟩
    · left; exact ⟨a0, a1, a2, rfl, h⟩

theorem InitLedger_after_delete (T : GoString) (stub : ChaincodeStub) (hT : T ∈ aucTables) :
    InitLedger ⟨stub.tables.filter (fun t => !decide (t.Name = T)), stub.state⟩ T =
      (⟨resetTable T stub.tables, stub.state⟩, none) := by
  have hvA : validColumnDefinitions (catalogSchema (str "AssetTable")) = true := by decide
  have hvH : validColumnDefinitions (catalogSchema (str "ContractHistory")) = true := by decide
  have e1 : getTable ⟨stub.tables.filter (fun t => !decide (t.Name = T)), stub.state⟩ T = none := by
    unfold getTable
    rw [List.find?_eq_none]
    intro x hx
    simp only [List.mem_filter] at hx
    simpa using hx.2
  have hn : ¬ GetNumberOfKeys T < 1 := by
    simp only [aucTables, List.mem_cons, List.mem_singleton, List.not_mem_nil, or_false] at hT
    rcases hT with rfl | rfl <;> decide
  have hv : validColumnDefinitions (catalogSchema T) = true := by
    simp only [aucTables, List.mem_cons, List.mem_singleton, List.not_mem_nil, or_false] at hT
    rcases hT with rfl | rfl <;> assumption
  unfold catalogSchema at hv
  simp only [InitLedger, hn, if_false, CreateTable, e1, hv, if_true, catalogSchema, resetTable]

theorem Init_eq (stub0 : ChaincodeStub) (f : GoString) (a : List GoString) :
    Init stub0 f a = (⟨resetTable (str "ContractHistory") (resetTable (str "AssetTable") stub0.tables),
      (str "version", Itoa 23) :: stub0.state.filter (fun kv => !decide (kv.1 = str "version"))⟩,
      some (str "Init(): Initialization Complete"), none) := by
  have h1 := InitLedger_after_delete (str "AssetTable") stub0 (by decide)
  have h2 := InitLedger_after_delete (str "ContractHistory")
    ⟨resetTable (str "AssetTable") stub0.tables, stub0.state⟩ (by decide)
  simp only [Init, InitTables, aucTables, DeleteTable, h1, h2, PutState]

theorem Init_consistent (stub0 : ChaincodeStub) (f : GoString) (a : List GoString) :
    Consistent (Init stub0 f a).1 := by
  rw [Init_eq]
  refine ⟨[], ?_, ?_, List.nodup_nil, by simp⟩
  · unfold getTable resetTable
    simp only
    rw [List.find?_append, List.filter_append, List.find?_append]
    have : List.find? (fun t => decide (t.Name = str "AssetTable"))
        (List.filter (fun t => !decide (t.Name = str "ContractHistory"))
          (List.filter (fun t => !decide (t.Name = str "AssetTable")) stub0.tables)) = none := by
      rw [List.find?_eq_none]
      intro x hx
      simp only [List.mem_filter] at hx
      simpa using hx.1.2
    rw [this]
    decide
  · unfold getTable
    have : ∀ ts : List Table, List.find? (fun t => decide (t.Name = str "ContractHistory"))
        (resetTable (str "ContractHistory") ts) =
        some ⟨str "ContractHistory", catalogSchema (str "ContractHistory"), []⟩ := by
      intro ts
      unfold resetTable
      rw [List.find?_append]
      have : List.find? (fun t => decide (t.Name = str "ContractHistory"))
          (List.filter (fun t => !decide (t.Name = str "ContractHistory")) ts) = none := by
        rw [List.find?_eq_none]
        intro x hx
        simp only [List.mem_filter] at hx
        simpa using hx.2
      rw [this]
      simp
    simp only [this]
    rfl

theorem rowHasKey_asset (s k : GoString) (P : Bytes) :
    rowHasKey (catalogSchema (str "AssetTable")) [Column.String_ s] (ledgerRow [k] P) =
      decide (k = s) := by
  simp [rowHasKey, catalogSchema_asset, ledgerRow, getKeyAndVerifyRow, columnHasType]

theorem rowHasKey_history (s k : GoString) (P : Bytes) :
    rowHasKey (catalogSchema (str "ContractHistory")) ((historyKey s).map Column.String_)
      (ledgerRow (historyKey k) P) = decide (k = s) := by
  simp [rowHasKey, catalogSchema_history, ledgerRow, getKeyAndVerifyRow, columnHasType, historyKey]

theorem any_assetRows (s : GoString) (l : List (GoString × Bytes)) :
    (assetRows l).any (rowHasKey (catalogSchema (str "AssetTable")) [Column.String_ s]) =
      l.any (fun x => decide (x.1 = s)) := by
  unfold assetRows
  induction l with
  | nil => rfl
  | cons x l ih => simp only [List.map_cons, List.any_cons, ih, rowHasKey_asset]

theorem any_historyRows (s : GoString) (l : List (GoString × Bytes)) :
    (historyRows l).any (rowHasKey (catalogSchema (str "ContractHistory"))
      ((historyKey s).map Column.String_)) = l.any (fun x => decide (x.1 = s)) := by
  unfold historyRows
  induction l with
  | nil => rfl
  | cons x l ih => simp only [List.map_cons, List.any_cons, ih, rowHasKey_history]

theorem find_assetRows (s : GoString) (l : List (GoString × Bytes)) :
    (assetRows l).find? (rowHasKey (catalogSchema (str "AssetTable")) [Column.String_ s]) =
      (l.find? (fun x => decide (x.1 = s))).map (fun x => ledgerRow [x.1] x.2) := by
  unfold assetRows
  induction l with
  | nil => rfl
  | cons x l ih =>
    simp only [List.map_cons, List.find?_cons, ih, rowHasKey_asset]
    cases decide (x.1 = s) <;> rfl

theorem find_historyRows (s : GoString) (l : List (GoString × Bytes)) :
    (historyRows l).find? (rowHasKey (catalogSchema (str "ContractHistory"))
      ((historyKey s).map Column.String_)) =
      (l.find? (fun x => decide (x.1 = s))).map (fun x => ledgerRow (historyKey x.1) x.2) := by
  unfold historyRows
  induction l with
  | nil => rfl
  | cons x l ih =>
    simp only [List.map_cons, List.find?_cons, ih, rowHasKey_history]
    cases decide (x.1 = s) <;> rfl

/-- A write to a catalog table that holds no row of the key succeeds and appends the row. -/
theorem UpdateLedger_fresh {stub : ChaincodeStub} {T : GoString} {K : List GoString}
    {P : Bytes} {t : Table} (hT : T ∈ aucTables) (hK : K.length = GetNumberOfKeys T)
    (ht : getTable stub T = some t) (hs : t.ColumnDefinitions = catalogSchema T)
    (hd : t.Rows.any (rowHasKey (catalogSchema T) (K.map Column.String_)) = false) :
    UpdateLedger stub T K P = some (appendRow stub T (ledgerRow K P), none) := by
  have hv := verify_catalog P hT hK
  have hi : InsertRow stub T ⟨K.map Column.String_ ++ [Column.Bytes P]⟩ =
      (appendRow stub T (ledgerRow K P), true, none) := by
    unfold InsertRow
    unfold ledgerRow at hv
    simp only [ht, hs, hv, hd, Bool.false_eq_true, if_false, ledgerRow]
  simp only [UpdateLedger, ← hK, stringColumns_length, hi]
  simp

theorem nKeys_asset (s : GoString) : [s].length = GetNumberOfKeys (str "AssetTable") := by
  have : GetNumberOfKeys (str "AssetTable") = 1 := by decide
  rw [this]; rfl

theorem nKeys_history (s : GoString) :
    (historyKey s).length = GetNumberOfKeys (str "ContractHistory") := by
  have : GetNumberOfKeys (str "ContractHistory") = 3 := by decide
  rw [this]; rfl

theorem PostAsset_consistent {stub stub1 : ChaincodeStub} {args : List GoString}
    {res : Option Bytes} {err : Option GoError} (hc : Consistent stub)
    (h : PostAsset stub args = some (stub1, res, err)) : Consistent stub1 := by
  rcases CreateAsset_cases args with ⟨s, p, o, rfl, hs⟩ | hbad
  · obtain ⟨l, hA, hH, hnd, hint⟩ := hc
    rw [PostAsset_valid stub s p o hs] at h
    by_cases hmem : l.any (fun x => decide (x.1 = s)) = true
    · have hd := UpdateLedger_duplicate (P := assetPayload s p o) (K := [s])
        (T := str "AssetTable") (by decide) (nKeys_asset s) hA rfl
        ((any_assetRows s l).trans hmem)
      rw [hd] at h
      simp only [Option.some.injEq, Prod.mk.injEq] at h
      rw [← h.1]
      exact ⟨l, hA, hH, hnd, hint⟩
    · have hmem : l.any (fun x => decide (x.1 = s)) = false := Bool.eq_false_iff.mpr hmem
      have h1 := UpdateLedger_fresh (P := assetPayload s p o) (K := [s])
        (T := str "AssetTable") (by decide) (nKeys_asset s) hA rfl
        ((any_assetRows s l).trans hmem)
      rw [h1] at h
      simp only at h
      have hH1 : getTable (appendRow stub (str "AssetTable") (ledgerRow [s] (assetPayload s p o)))
          (str "ContractHistory") = some ⟨str "ContractHistory",
            catalogSchema (str "ContractHistory"), historyRows l⟩ := by
        rw [getTable_appendRow_other (by decide), hH]
      have h2 := UpdateLedger_fresh (P := assetPayload s p o) (K := historyKey s)
        (T := str "ContractHistory") (by decide) (nKeys_history s) hH1 rfl
        ((any_historyRows s l).trans hmem)
      rw [h2] at h
      simp only [Option.some.injEq, Prod.mk.injEq] at h
      rw [← h.1]
      refine ⟨l ++ [(s, assetPayload s p o)], ?_, ?_, ?_, ?_⟩
      · rw [getTable_appendRow_other (by decide), getTable_appendRow_same, hA]
        simp [assetRows]
      · rw [getTable_appendRow_same, hH1]
        simp [historyRows]
      · rw [List.map_append, List.nodup_append]
        refine ⟨hnd, by simp, ?_⟩
        intro a ha hb
        simp only [List.map_cons, List.map_nil, List.mem_singleton] at hb
        subst hb
        rw [List.any_eq_false] at hmem
        obtain ⟨x, hx, hx1⟩ := List.mem_map.mp ha
        exact hmem x hx (by simpa using hx1)
      · intro x hx
        rcases List.mem_append.mp hx with hx | hx
        · exact hint x hx
        · simp only [List.mem_singleton] at hx
          subst hx
          exact hs
  · obtain ⟨e, he⟩ := PostAsset_invalid stub args hbad
    rw [he] at h
    simp only [Option.some.injEq, Prod.mk.injEq] at h
    rw [← h.1]
    exact hc

theorem reachable_consistent {stub : ChaincodeStub} (h : Reachable stub) : Consistent stub := by
  induction h with
  | init stub0 stub f a res hi =>
    have := Init_consistent stub0 f a
    rw [hi] at this
    exact this
  | post stub stub1 args res err _ hp ih => exact PostAsset_consistent ih hp


/-- A write with as many keys as the table has, at least one, does not panic. -/
theorem UpdateLedger_returns (stub : ChaincodeStub) (T : GoString) (K : List GoString)
    (P : Bytes) (hK : K.length = GetNumberOfKeys T) (hpos : 0 < K.length) :
    ∃ r, UpdateLedger stub T K P = some r := by
  match K, hpos with
  | k :: ks, _ =>
    rcases hi : InsertRow stub T ⟨(k :: ks).map Column.String_ ++ [Column.Bytes P]⟩ with
      ⟨s1, ok, err⟩
    simp only [UpdateLedger, ← hK, stringColumns_length, hi]
    cases err with
    | some e => exact ⟨_, rfl⟩
    | none => cases ok <;> simp

/-- `PostAsset` returns for every ledger and every argument list: it does not panic. -/
theorem PostAsset_returns (stub : ChaincodeStub) (args : List GoString) :
    ∃ r, PostAsset stub args = some r := by
  rcases CreateAsset_cases args with ⟨s, p, o, rfl, hs⟩ | hbad
  · rw [PostAsset_valid stub s p o hs]
    obtain ⟨⟨stub1, e1⟩, h1⟩ := UpdateLedger_returns stub (str "AssetTable") [s]
      (assetPayload s p o) (nKeys_asset s) (by simp)
    rw [h1]
    cases e1 with
    | some e => exact ⟨_, rfl⟩
    | none =>
      obtain ⟨⟨stub2, e2⟩, h2⟩ := UpdateLedger_returns stub1 (str "ContractHistory")
        (historyKey s) (assetPayload s p o) (nKeys_history s) (by simp [historyKey])
      simp only [h2]
      cases e2 with
      | some e => exact ⟨_, rfl⟩
      | none => exact ⟨_, rfl⟩
  · obtain ⟨e, he⟩ := PostAsset_invalid stub args hbad
    exact ⟨_, he⟩

/-- In every ledger the application reaches, both tables exist with their catalog schema. -/
theorem reachable_hasCatalogTable {stub : ChaincodeStub} (h : Reachable stub) :
    HasCatalogTable stub (str "AssetTable") ∧ HasCatalogTable stub (str "ContractHistory") := by
  obtain ⟨l, hA, hH, _, _⟩ := reachable_consistent h
  unfold HasCatalogTable
  rw [hA, hH]
  exact ⟨rfl, rfl⟩

/-! ## The dual-table write -/

theorem find_none_of_not_int {l : List (GoString × Bytes)} {a0 : GoString}
    (hint : ∀ x ∈ l, Atoi x.1 ≠ none) (ha : Atoi a0 = none) :
    l.find? (fun x => decide (x.1 = a0)) = none := by
  rw [List.find?_eq_none]
  intro x hx hx1
  have : x.1 = a0 := by simpa using hx1
  exact hint x hx (this ▸ ha)

/-- C2 as amended, validation rejection. For an argument list whose length is
not 3, or whose first field does not parse as an integer, `PostAsset` returns
an error with no payload and leaves the ledger as it was, so no row is written
to either table. A following `GetAsset` on the first field reports that the
asset is not found whenever `AssetTable` held no row under that first field
before the call; in a ledger the application reaches that is so for every
first field that does not parse as an integer. -/
theorem validation_rejection (stub : ChaincodeStub) (args : List GoString)
    (h : args.length ≠ 3 ∨ ∃ a0, args[0]? = some a0 ∧ Atoi a0 = none) :
    (∃ err, PostAsset stub args = some (stub, none, some err)) ∧
    (∀ a0, args[0]? = some a0 →
      GetRow stub (str "AssetTable") [Column.String_ a0] = (⟨[]⟩, none) →
      GetAsset stub [a0] = some (none, some (GoError.New
        (str "\x7b\"Error\":\"Failed to get  Object Data for " ++ a0 ++ str "\"\x7d")))) ∧
    (∀ a0, Reachable stub → args[0]? = some a0 → Atoi a0 = none →
      GetAsset stub [a0] = some (none, some (GoError.New
        (str "\x7b\"Error\":\"Failed to get  Object Data for " ++ a0 ++ str "\"\x7d")))) := by
  have hn : GetNumberOfKeys (str "AssetTable") = 1 := by decide
  have habsent : ∀ a0, GetRow stub (str "AssetTable") [Column.String_ a0] = (⟨[]⟩, none) →
      GetAsset stub [a0] = some (none, some (GoError.New
        (str "\x7b\"Error\":\"Failed to get  Object Data for " ++ a0 ++ str "\"\x7d"))) := by
    intro a0 hg
    simp [GetAsset, QueryLedger, hn, stringColumns, hg]
  refine ⟨PostAsset_invalid stub args h, fun a0 _ hg => habsent a0 hg, ?_⟩
  intro a0 hr _ ha
  obtain ⟨l, hA, _, _, hint⟩ := reachable_consistent hr
  apply habsent
  unfold GetRow
  simp only [hA, find_assetRows, find_none_of_not_int hint ha, Option.map_none']

/-- Witness of `validation_rejection`: `PostAsset("abc","WIDGET","alice")` on the ledger after `Init`. -/
theorem validation_rejection_witness :
    (∃ err, PostAsset freshLedger [str "abc", str "WIDGET", str "alice"] =
      some (freshLedger, none, some err)) ∧
    GetAsset freshLedger [str "abc"] = some (none, some (GoError.New
      (str "\x7b\"Error\":\"Failed to get  Object Data for " ++ str "abc" ++ str "\"\x7d"))) :=
  ⟨(validation_rejection freshLedger [str "abc", str "WIDGET", str "alice"]
      (Or.inr ⟨str "abc", rfl, by decide⟩)).1,
    (validation_rejection freshLedger [str "abc", str "WIDGET", str "alice"]
      (Or.inr ⟨str "abc", rfl, by decide⟩)).2.2 (str "abc")
      (Reachable.init ⟨[], []⟩ freshLedger [] [] (some (str "Init(): Initialization Complete"))
        (by decide)) rfl (by decide)⟩

/-- C2 as stated fails: after `PostAsset("42","WIDGET","alice")`, the call
`PostAsset("42","x")` has an argument list of length 2; it returns the error of
the argument count and leaves the ledger as it was, and the following
`GetAsset("42")` returns the payload of the earlier post, not not-found. -/
theorem validation_rejection_counterexample :
    PostAsset freshLedger [str "42", str "WIDGET", str "alice"] =
      some (postedLedger, none, none) ∧
    [str "42", str "x"].length ≠ 3 ∧
    PostAsset postedLedger [str "42", str "x"] =
      some (postedLedger, none, some (GoError.New
        (str "CreateAssetObject(): Incorrect number of arguments. Expecting 3 "))) ∧
    GetAsset postedLedger [str "42"] =
      some (some (str "\x7b\"Serialno\":\"42\",\"Partno\":\"WIDGET\",\"Owner\":\"alice\"\x7d"),
        none) := by
  decide

/-- C7, abort on primary-write failure. For a valid argument list, when the
insert into `AssetTable` under the key of the serial number fails, `PostAsset`
returns that failure, with the payload, and the ledger is as it was before the
call: no history entry is written and no row of `AssetTable` is changed. -/
theorem abort_on_primary_failure (stub stub1 : ChaincodeStub) (s p o : GoString)
    (err : GoError) (hs : Atoi s ≠ none)
    (h : UpdateLedger stub (str "AssetTable") [s] (assetPayload s p o) = some (stub1, some err)) :
    ∃ stub2, PostAsset stub [s, p, o] = some (stub2, some (assetPayload s p o), some err) ∧
      stub2 = stub ∧
      getTable stub2 (str "ContractHistory") = getTable stub (str "ContractHistory") ∧
      getTable stub2 (str "AssetTable") = getTable stub (str "AssetTable") := by
  have hst := UpdateLedger_failure h
  subst hst
  rw [PostAsset_valid stub1 s p o hs, h]
  exact ⟨stub1, rfl, rfl, rfl, rfl⟩

/-- Witness of `abort_on_primary_failure`: a second post of the serial number 42. -/
theorem abort_on_primary_failure_witness :
    ∃ stub2, PostAsset postedLedger [str "42", str "GADGET", str "bob"] =
        some (stub2, some (assetPayload (str "42") (str "GADGET") (str "bob")),
          some (GoError.New (str
            "UpdateLedger: InsertRow into AssetTable Table failed. Row with given key 42 already exists"))) ∧
      stub2 = postedLedger ∧
      getTable stub2 (str "ContractHistory") = getTable postedLedger (str "ContractHistory") ∧
      getTable stub2 (str "AssetTable") = getTable postedLedger (str "AssetTable") :=
  abort_on_primary_failure postedLedger postedLedger (str "42") (str "GADGET") (str "bob") _
    (by decide) (by decide)

/-- C3 as amended. For a valid argument list for which the insert into
`AssetTable` and the insert into `ContractHistory` both succeed, each with the
encoded payload of the asset, `PostAsset` returns no payload and no error, and
the ledger is the one after the two inserts. -/
theorem post_success_returns_nil (stub stub1 stub2 : ChaincodeStub) (s p o : GoString)
    (hs : Atoi s ≠ none)
    (h1 : UpdateLedger stub (str "AssetTable") [s] (assetPayload s p o) = some (stub1, none))
    (h2 : UpdateLedger stub1 (str "ContractHistory") (historyKey s) (assetPayload s p o) =
      some (stub2, none)) :
    PostAsset stub [s, p, o] = some (stub2, none, none) := by
  rw [PostAsset_valid stub s p o hs, h1]
  simp only [h2]

/-- Witness of `post_success_returns_nil`: `PostAsset("42","WIDGET","alice")` on the ledger after `Init`. -/
theorem post_success_returns_nil_witness :
    PostAsset freshLedger [str "42", str "WIDGET", str "alice"] = some (postedLedger, none, none) :=
  post_success_returns_nil freshLedger
    (appendRow freshLedger (str "AssetTable")
      (ledgerRow [str "42"] (assetPayload (str "42") (str "WIDGET") (str "alice"))))
    postedLedger (str "42") (str "WIDGET") (str "alice") (by decide) (by decide) (by decide)

/-- C3 as stated fails: `PostAsset("42","WIDGET","alice")` on the ledger after
`Init` performs both inserts with the encoded payload and returns no error, and
the payload it returns is `nil`, not the encoded payload. -/
theorem post_success_payload_counterexample :
    UpdateLedger freshLedger (str "AssetTable") [str "42"]
        (assetPayload (str "42") (str "WIDGET") (str "alice")) =
      some (appendRow freshLedger (str "AssetTable")
        (ledgerRow [str "42"] (assetPayload (str "42") (str "WIDGET") (str "alice"))), none) ∧
    UpdateLedger (appendRow freshLedger (str "AssetTable")
        (ledgerRow [str "42"] (assetPayload (str "42") (str "WIDGET") (str "alice"))))
        (str "ContractHistory") (historyKey (str "42"))
        (assetPayload (str "42") (str "WIDGET") (str "alice")) = some (postedLedger, none) ∧
    ARtoJSON ⟨str "42", str "WIDGET", str "alice"⟩ =
      (some (str "\x7b\"Serialno\":\"42\",\"Partno\":\"WIDGET\",\"Owner\":\"alice\"\x7d"), none) ∧
    (PostAsset freshLedger [str "42", str "WIDGET", str "alice"]).map (fun r => r.2) =
      some (none, none) := by
  decide


/-! ## Consistency of the two tables -/

theorem column_beq (s k : GoString) :
    (Column.String_ s == Column.String_ k) = decide (k = s) := by
  by_cases h : k = s
  · subst h; simp
  · have : ¬ (Column.String_ s = Column.String_ k) := fun e =>
      h (by injection e with e; exact e.symm)
    simp [h, this]

theorem rowHasKeyPrefix_asset (s k : GoString) (P : Bytes) :
    rowHasKeyPrefix (catalogSchema (str "AssetTable")) [Column.String_ s] (ledgerRow [k] P) =
      decide (k = s) := by
  simp [rowHasKeyPrefix, catalogSchema_asset, ledgerRow, getKeyAndVerifyRow, columnHasType,
    List.isPrefixOf]
  exact column_beq s k

theorem rowHasKeyPrefix_history (s k : GoString) (P : Bytes) :
    rowHasKeyPrefix (catalogSchema (str "ContractHistory")) ((historyKey s).map Column.String_)
      (ledgerRow (historyKey k) P) = decide (k = s) := by
  simp [rowHasKeyPrefix, catalogSchema_history, ledgerRow, getKeyAndVerifyRow, columnHasType,
    List.isPrefixOf, historyKey]
  exact column_beq s k

theorem filter_assetRows (s : GoString) (l : List (GoString × Bytes)) :
    (assetRows l).filter (rowHasKeyPrefix (catalogSchema (str "AssetTable")) [Column.String_ s]) =
      assetRows (l.filter (fun x => decide (x.1 = s))) := by
  unfold assetRows
  induction l with
  | nil => rfl
  | cons x l ih =>
    simp only [List.map_cons, List.filter_cons, ih, rowHasKeyPrefix_asset]
    cases decide (x.1 = s) <;> rfl

theorem filter_historyRows (s : GoString) (l : List (GoString × Bytes)) :
    (historyRows l).filter (rowHasKeyPrefix (catalogSchema (str "ContractHistory"))
      ((historyKey s).map Column.String_)) =
      historyRows (l.filter (fun x => decide (x.1 = s))) := by
  unfold historyRows
  induction l with
  | nil => rfl
  | cons x l ih =>
    simp only [List.map_cons, List.filter_cons, ih, rowHasKeyPrefix_history]
    cases decide (x.1 = s) <;> rfl

theorem filter_eq_find_of_nodup (s : GoString) (l : List (GoString × Bytes))
    (hnd : (l.map Prod.fst).Nodup) :
    l.filter (fun x => decide (x.1 = s)) = (l.find? (fun x => decide (x.1 = s))).toList := by
  induction l with
  | nil => rfl
  | cons x l ih =>
    rw [List.map_cons, List.nodup_cons] at hnd
    by_cases hx : x.1 = s
    · simp only [List.filter_cons, List.find?_cons, hx, decide_True, if_true, Option.toList_some]
      congr 1
      rw [List.filter_eq_nil_iff]
      intro y hy hy1
      have : y.1 = s := by simpa using hy1
      exact hnd.1 (List.mem_map.mpr ⟨y, hy, this.trans hx.symm⟩)
    · simp only [List.filter_cons, List.find?_cons, hx, decide_False, Bool.false_eq_true, if_false]
      exact ih hnd.2

theorem drain_eq (acc rows : List Row) : drain acc rows = acc ++ rows := by
  induction rows generalizing acc with
  | nil => simp [drain]
  | cons r rows ih => simp [drain, ih]

/-- C10, dual-table consistency. In every ledger reached from a successful
`Init` by calls of `PostAsset` with any arguments, and for every serial number
`s`: either `AssetTable` holds no row under the key `[s]` and `ContractHistory`
holds no row under the key `["2016", s, "random"]`, or each table holds exactly
one row under its key and the two rows carry the same payload. -/
theorem dual_table_consistency (stub : ChaincodeStub) (h : Reachable stub) (s : GoString) :
    (GetRow stub (str "AssetTable") [Column.String_ s] = (⟨[]⟩, none) ∧
      GetRow stub (str "ContractHistory") ((historyKey s).map Column.String_) = (⟨[]⟩, none) ∧
      GetRows stub (str "AssetTable") [Column.String_ s] = ([], none) ∧
      GetRows stub (str "ContractHistory") ((historyKey s).map Column.String_) = ([], none)) ∨
    (∃ payload : Bytes,
      GetRow stub (str "AssetTable") [Column.String_ s] = (ledgerRow [s] payload, none) ∧
      GetRow stub (str "ContractHistory") ((historyKey s).map Column.String_) =
        (ledgerRow (historyKey s) payload, none) ∧
      GetRows stub (str "AssetTable") [Column.String_ s] = ([ledgerRow [s] payload], none) ∧
      GetRows stub (str "ContractHistory") ((historyKey s).map Column.String_) =
        ([ledgerRow (historyKey s) payload], none)) := by
  obtain ⟨l, hA, hH, hnd, _⟩ := reachable_consistent h
  have hfA := find_assetRows s l
  have hfH := find_historyRows s l
  have hgA := filter_assetRows s l
  have hgH := filter_historyRows s l
  rw [filter_eq_find_of_nodup s l hnd] at hgA hgH
  cases hf : l.find? (fun x => decide (x.1 = s)) with
  | none =>
    left
    rw [hf] at hfA hfH hgA hgH
    simp only [GetRow, GetRows, hA, hH, hfA, hfH, hgA, hgH]
    simp [assetRows, historyRows]
  | some x =>
    right
    have hx : x.1 = s := by simpa using List.find?_some hf
    rw [hf] at hfA hfH hgA hgH
    refine ⟨x.2, ?_⟩
    simp only [GetRow, GetRows, hA, hH, hfA, hfH, hgA, hgH]
    simp [assetRows, historyRows, hx]

/-- Witness of `dual_table_consistency`: the ledger after `Init` and
`PostAsset("42","WIDGET","alice")`, at the serial number 42. -/
theorem dual_table_consistency_witness :
    (GetRow postedLedger (str "AssetTable") [Column.String_ (str "42")] = (⟨[]⟩, none) ∧
      GetRow postedLedger (str "ContractHistory") ((historyKey (str "42")).map Column.String_) =
        (⟨[]⟩, none) ∧
      GetRows postedLedger (str "AssetTable") [Column.String_ (str "42")] = ([], none) ∧
      GetRows postedLedger (str "ContractHistory") ((historyKey (str "42")).map Column.String_) =
        ([], none)) ∨
    (∃ payload : Bytes,
      GetRow postedLedger (str "AssetTable") [Column.String_ (str "42")] =
        (ledgerRow [str "42"] payload, none) ∧
      GetRow postedLedger (str "ContractHistory") ((historyKey (str "42")).map Column.String_) =
        (ledgerRow (historyKey (str "42")) payload, none) ∧
      GetRows postedLedger (str "AssetTable") [Column.String_ (str "42")] =
        ([ledgerRow [str "42"] payload], none) ∧
      GetRows postedLedger (str "ContractHistory") ((historyKey (str "42")).map Column.String_) =
        ([ledgerRow (historyKey (str "42")) payload], none)) :=
  dual_table_consistency postedLedger
    (Reachable.post freshLedger postedLedger [str "42", str "WIDGET", str "alice"] none none
      (Reachable.init ⟨[], []⟩ freshLedger [] [] (some (str "Init(): Initialization Complete"))
        (by decide))
      (by decide))
    (str "42")


/-! ## Table creation -/

theorem HasCatalogTable_resetTable (T : GoString) (ts : List Table)
    (st : List (GoString × Bytes)) : HasCatalogTable ⟨resetTable T ts, st⟩ T := by
  unfold HasCatalogTable getTable resetTable
  have h0 : List.find? (fun t => decide (t.Name = T))
      (List.filter (fun t => !decide (t.Name = T)) ts) = none := by
    rw [List.find?_eq_none]
    intro x hx
    simp only [List.mem_filter] at hx
    simpa using hx.2
  simp only [List.find?_append, h0]
  simp

/-- C9 as amended, table creation. For a catalog table `T`: when the table
exists, so that the engine reports it through the error of `CreateTable`,
`InitLedger` returns the creation failure that names the table and leaves the
ledger, and so the schema of the table, as it was. Creation again succeeds
through the drop that `Init` performs first: `InitLedger` after `DeleteTable`
returns no error and gives the table its catalog schema, and `Init` on any
ledger returns no error and leaves both tables with their catalog schema. -/
theorem idempotent_create (stub : ChaincodeStub) (T : GoString) (function : GoString)
    (args : List GoString) (hT : T ∈ aucTables) :
    ((getTable stub T).isSome = true →
      CreateTable stub T (catalogSchema T) = (stub, some (GoError.Lib LibError.tableExists)) ∧
      InitLedger stub T = (stub, some (GoError.New
        (str "Auction_Application: Failed creating Table " ++ T)))) ∧
    (InitLedger (DeleteTable stub T).1 T).2 = none ∧
    HasCatalogTable (InitLedger (DeleteTable stub T).1 T).1 T ∧
    (Init stub function args).2.2 = none ∧
    HasCatalogTable (Init stub function args).1 (str "AssetTable") ∧
    HasCatalogTable (Init stub function args).1 (str "ContractHistory") := by
  have hn : ¬ GetNumberOfKeys T < 1 := by
    simp only [aucTables, List.mem_cons, List.mem_singleton, List.not_mem_nil, or_false] at hT
    rcases hT with rfl | rfl <;> decide
  have hd : InitLedger (DeleteTable stub T).1 T = (⟨resetTable T stub.tables, stub.state⟩, none) :=
    InitLedger_after_delete T stub hT
  refine ⟨?_, by rw [hd], by rw [hd]; exact HasCatalogTable_resetTable T _ _, by rw [Init_eq],
    ?_, ?_⟩
  · intro hsome
    obtain ⟨t, ht⟩ := Option.isSome_iff_exists.mp hsome
    have hc : ∀ defs, CreateTable stub T defs = (stub, some (GoError.Lib LibError.tableExists)) := by
      intro defs
      simp only [CreateTable, ht]
    refine ⟨hc _, ?_⟩
    simp only [InitLedger, hn, if_false, hc]
  · obtain ⟨l, hA, _, _, _⟩ := Init_consistent stub function args
    unfold HasCatalogTable
    rw [hA]
    rfl
  · obtain ⟨l, _, hH, _, _⟩ := Init_consistent stub function args
    unfold HasCatalogTable
    rw [hH]
    rfl

/-- Witness of `idempotent_create`: `AssetTable` in the ledger after `Init` and
`PostAsset("42","WIDGET","alice")`, where the table exists. -/
theorem idempotent_create_witness :
    (CreateTable postedLedger (str "AssetTable") (catalogSchema (str "AssetTable")) =
        (postedLedger, some (GoError.Lib LibError.tableExists)) ∧
      InitLedger postedLedger (str "AssetTable") = (postedLedger, some (GoError.New
        (str "Auction_Application: Failed creating Table " ++ str "AssetTable")))) ∧
    (InitLedger (DeleteTable postedLedger (str "AssetTable")).1 (str "AssetTable")).2 = none ∧
    HasCatalogTable (InitLedger (DeleteTable postedLedger (str "AssetTable")).1
      (str "AssetTable")).1 (str "AssetTable") ∧
    (Init postedLedger [] []).2.2 = none ∧
    HasCatalogTable (Init postedLedger [] []).1 (str "AssetTable") ∧
    HasCatalogTable (Init postedLedger [] []).1 (str "ContractHistory") :=
  ⟨(idempotent_create postedLedger (str "AssetTable") [] [] (by decide)).1 (by decide),
    (idempotent_create postedLedger (str "AssetTable") [] [] (by decide)).2⟩

/-- C9 as stated fails: in the ledger after `Init`, where `AssetTable` exists
with its catalog schema, `CreateTable` reports that the table exists and
`InitLedger` returns the creation failure, not success; the ledger, and so the
schema of the table, is as it was. -/
theorem idempotent_create_counterexample :
    InitLedger freshLedger (str "AssetTable") =
      (freshLedger,
        some (GoError.New (str "Auction_Application: Failed creating Table AssetTable"))) ∧
    CreateTable freshLedger (str "AssetTable") (catalogSchema (str "AssetTable")) =
      (freshLedger, some (GoError.Lib LibError.tableExists)) ∧
    HasCatalogTable freshLedger (str "AssetTable") := by
  decide


/-! ## The record codec -/

theorem byte_eq_of_val {a b : Byte} (h : a.val = b.val) : a = b := Fin.ext h

/-- A well-formed multi-byte encoding at the head of a string: the bytes of the
rune are the lead byte and continuation bytes `bs`, `encodeRune` gives them
back, and what follows them does not change the decoding. -/
theorem decodeRune_multibyte (b : Byte) (rest : List Byte) (hb : 0x80 ≤ b.val)
    (hv : ¬ ((decodeRune (b :: rest)).1 = RuneError ∧ (decodeRune (b :: rest)).2 = 1)) :
    ∃ bs rest1, rest = bs ++ rest1 ∧ (decodeRune (b :: rest)).2 = bs.length + 1 ∧
      encodeRune (decodeRune (b :: rest)).1 = b :: bs ∧
      (∀ tail, decodeRune (b :: (bs ++ tail)) = decodeRune (b :: rest)) := by
  have hb0 : ¬ b.val < 0x80 := by omega
  by_cases h1 : b.val < 0xC2
  · exact absurd (by simp [decodeRune, hb0, h1]) hv
  by_cases h2 : b.val < 0xE0
  · match rest with
    | [] => exact absurd (by simp [decodeRune, hb0, h1, h2]) hv
    | b1 :: r =>
      by_cases c1 : isCont b1 = true
      · refine ⟨[b1], r, rfl, by simp [decodeRune, hb0, h1, h2, c1], ?_, ?_⟩
        · have hd : decodeRune (b :: b1 :: r) = (b.val % 32 * 64 + b1.val % 64, 2) := by
            simp [decodeRune, hb0, h1, h2, c1]
          rw [hd]
          simp only [isCont, decide_eq_true_eq] at c1
          have hr : ¬ (b.val % 32 * 64 + b1.val % 64 ≤ 0x7F) := by omega
          have hr2 : b.val % 32 * 64 + b1.val % 64 ≤ 0x7FF := by omega
          simp only [encodeRune, hr, hr2, if_true, if_false]
          congr 1
          · apply byte_eq_of_val; simp [Fin.ofNat]; omega
          · congr 1; apply byte_eq_of_val; simp [Fin.ofNat]; omega
        · intro tail
          simp [decodeRune, hb0, h1, h2, c1]
      · exact absurd (by simp [decodeRune, hb0, h1, h2, c1]) hv
  by_cases h3 : b.val < 0xF0
  · match rest with
    | [] => exact absurd (by simp [decodeRune, hb0, h1, h2, h3]) hv
    | [_] => exact absurd (by simp [decodeRune, hb0, h1, h2, h3]) hv
    | b1 :: b2 :: r =>
      by_cases c1 : (if b.val = 0xE0 then 0xA0 else 0x80) ≤ b1.val ∧
          b1.val ≤ (if b.val = 0xED then 0x9F else 0xBF)
      · by_cases c2 : isCont b2 = true
        · refine ⟨[b1, b2], r, rfl, by simp [decodeRune, hb0, h1, h2, h3, c1, c2], ?_, ?_⟩
          · have hd : decodeRune (b :: b1 :: b2 :: r) =
                (b.val % 16 * 4096 + b1.val % 64 * 64 + b2.val % 64, 3) := by
              simp [decodeRune, hb0, h1, h2, h3, c1, c2]
            rw [hd]
            simp only [isCont, decide_eq_true_eq] at c2
            have hr : ¬ (b.val % 16 * 4096 + b1.val % 64 * 64 + b2.val % 64 ≤ 0x7F) := by
              split_ifs at c1 <;> omega
            have hr2 : ¬ (b.val % 16 * 4096 + b1.val % 64 * 64 + b2.val % 64 ≤ 0x7FF) := by
              split_ifs at c1 <;> omega
            have hr3 : ¬ (0x10FFFF < b.val % 16 * 4096 + b1.val % 64 * 64 + b2.val % 64 ∨
                (0xD800 ≤ b.val % 16 * 4096 + b1.val % 64 * 64 + b2.val % 64 ∧
                  b.val % 16 * 4096 + b1.val % 64 * 64 + b2.val % 64 ≤ 0xDFFF)) := by
              split_ifs at c1 <;> omega
            have hr4 : b.val % 16 * 4096 + b1.val % 64 * 64 + b2.val % 64 ≤ 0xFFFF := by
              split_ifs at c1 <;> omega
            simp only [encodeRune, hr, hr2, hr3, hr4, if_true, if_false]
            congr 1
            · apply byte_eq_of_val; simp [Fin.ofNat]; split_ifs at c1 <;> omega
            · congr 1
              · apply byte_eq_of_val; simp [Fin.ofNat]; split_ifs at c1 <;> omega
              · congr 1; apply byte_eq_of_val; simp [Fin.ofNat]; omega
          · intro tail
            simp [decodeRune, hb0, h1, h2, h3, c1, c2]
        · exact absurd (by simp [decodeRune, hb0, h1, h2, h3, c1, c2]) hv
      · exact absurd (by simp [decodeRune, hb0, h1, h2, h3, c1]) hv
  by_cases h4 : b.val < 0xF5
  · match rest with
    | [] => exact absurd (by simp [decodeRune, hb0, h1, h2, h3, h4]) hv
    | [_] => exact absurd (by simp [decodeRune, hb0, h1, h2, h3, h4]) hv
    | [_, _] => exact absurd (by simp [decodeRune, hb0, h1, h2, h3, h4]) hv
    | b1 :: b2 :: b3 :: r =>
      by_cases c1 : (if b.val = 0xF0 then 0x90 else 0x80) ≤ b1.val ∧
          b1.val ≤ (if b.val = 0xF4 then 0x8F else 0xBF)
      · by_cases c2 : isCont b2 = true
        · by_cases c3 : isCont b3 = true
          · refine ⟨[b1, b2, b3], r, rfl, by simp [decodeRune, hb0, h1, h2, h3, h4, c1, c2, c3],
              ?_, ?_⟩
            · have hd : decodeRune (b :: b1 :: b2 :: b3 :: r) =
                  (b.val % 8 * 262144 + b1.val % 64 * 4096 + b2.val % 64 * 64 + b3.val % 64, 4) := by
                simp [decodeRune, hb0, h1, h2, h3, h4, c1, c2, c3]
              rw [hd]
              simp only [isCont, decide_eq_true_eq] at c2 c3
              have hr : ¬ (b.val % 8 * 262144 + b1.val % 64 * 4096 + b2.val % 64 * 64 +
                  b3.val % 64 ≤ 0x7F) := by split_ifs at c1 <;> omega
              have hr2 : ¬ (b.val % 8 * 262144 + b1.val % 64 * 4096 + b2.val % 64 * 64 +
                  b3.val % 64 ≤ 0x7FF) := by split_ifs at c1 <;> omega
              have hr3 : ¬ (0x10FFFF < b.val % 8 * 262144 + b1.val % 64 * 4096 +
                  b2.val % 64 * 64 + b3.val % 64 ∨
                  (0xD800 ≤ b.val % 8 * 262144 + b1.val % 64 * 4096 + b2.val % 64 * 64 +
                    b3.val % 64 ∧
                  b.val % 8 * 262144 + b1.val % 64 * 4096 + b2.val % 64 * 64 + b3.val % 64 ≤
                    0xDFFF)) := by split_ifs at c1 <;> omega
              have hr4 : ¬ (b.val % 8 * 262144 + b1.val % 64 * 4096 + b2.val % 64 * 64 +
                  b3.val % 64 ≤ 0xFFFF) := by split_ifs at c1 <;> omega
              simp only [encodeRune, hr, hr2, hr3, hr4, if_true, if_false]
              congr 1
              · apply byte_eq_of_val; simp [Fin.ofNat]; split_ifs at c1 <;> omega
              · congr 1
                · apply byte_eq_of_val; simp [Fin.ofNat]; split_ifs at c1 <;> omega
                · congr 1
                  · apply byte_eq_of_val; simp [Fin.ofNat]; omega
                  · congr 1; apply byte_eq_of_val; simp [Fin.ofNat]; omega
            · intro tail
              simp [decodeRune, hb0, h1, h2, h3, h4, c1, c2, c3]
          · exact absurd (by simp [decodeRune, hb0, h1, h2, h3, h4, c1, c2, c3]) hv
        · exact absurd (by simp [decodeRune, hb0, h1, h2, h3, h4, c1, c2]) hv
      · exact absurd (by simp [decodeRune, hb0, h1, h2, h3, h4, c1]) hv
  · exact absurd (by simp [decodeRune, hb0, h1, h2, h3, h4]) hv


theorem byte_lit_val (n : Nat) : ((no_index (OfNat.ofNat n) : Byte)).val = n % 256 := rfl

theorem hexVal_hexDigit : ∀ n, n < 16 → hexVal (hexDigit n) = some n := by decide

theorem scanString_quote (fuel : Nat) (tail : Bytes) :
    scanString (fuel + 1) (0x22 :: tail) = some ([], tail) := by
  simp [scanString, byte_lit_val]

/-- Reading an escape `\uXXXX` of a value that is not a surrogate. -/
theorem scanString_u (fuel : Nat) (a b c d : Byte) (x : Bytes) (v : Nat)
    (hv : hex4 (a :: b :: c :: d :: x) = some (v, x)) (hns : ¬ (0xD800 ≤ v ∧ v < 0xE000)) :
    scanString (fuel + 1) (0x5C :: 0x75 :: a :: b :: c :: d :: x) =
      (scanString fuel x).map (fun r => (encodeRune v ++ r.1, r.2)) := by
  simp [scanString, byte_lit_val, hv, hns]

/-- Reading the escape of an ASCII byte gives the byte back. -/
theorem scanString_ascii (b : Byte) (hb : b.val < 0x80) (fuel : Nat) (x : Bytes) :
    scanString (fuel + 1) ((if isSafeByte b then [b] else escapeByte b) ++ x) =
      (scanString fuel x).map (fun r => (b :: r.1, r.2)) := by
  by_cases hsafe : isSafeByte b = true
  · simp only [hsafe, if_true, List.singleton_append]
    simp only [isSafeByte, decide_eq_true_eq] at hsafe
    have h1 : ¬ b.val = 0x22 := hsafe.2.2.1
    have h2 : ¬ b.val = 0x5C := hsafe.2.1
    have h3 : ¬ b.val < 0x20 := by omega
    simp only [scanString, h1, h2, h3, hb, if_true, if_false]
  · simp only [hsafe, if_false, Bool.false_eq_true]
    simp only [isSafeByte, decide_eq_true_eq] at hsafe
    unfold escapeByte
    by_cases e1 : b.val = 0x5C ∨ b.val = 0x22
    · simp only [e1, if_true, List.cons_append, List.nil_append]
      rcases e1 with e1 | e1
      · simp [scanString, e1, byte_lit_val]
      · simp [scanString, e1, byte_lit_val]
    simp only [e1, if_false]
    by_cases e2 : b.val = 0x0A
    · have : b = 0x0A := byte_eq_of_val e2
      subst this
      simp [scanString, byte_lit_val]
    simp only [e2, if_false]
    by_cases e3 : b.val = 0x0D
    · have : b = 0x0D := byte_eq_of_val e3
      subst this
      simp [scanString, byte_lit_val]
    simp only [e3, if_false]
    by_cases e4 : b.val = 0x09
    · have : b = 0x09 := byte_eq_of_val e4
      subst this
      simp [scanString, byte_lit_val]
    simp only [e4, if_false]
    have hs : str "\\u00" = [0x5C, 0x75, 0x30, 0x30] := by decide
    have hx1 := hexVal_hexDigit (b.val / 16) (by omega)
    have hx2 := hexVal_hexDigit (b.val % 16) (by omega)
    have hx0 : hexVal (0x30 : Byte) = some 0 := by decide
    have hsum : 0 * 4096 + 0 * 256 + b.val / 16 * 16 + b.val % 16 = b.val := by omega
    have henc : encodeRune b.val = [b] := by
      have : b.val ≤ 0x7F := by omega
      simp only [encodeRune, this, if_true]
      congr 1
      apply byte_eq_of_val
      simp [Fin.ofNat]
    have hv : hex4 (0x30 :: 0x30 :: hexDigit (b.val / 16) :: hexDigit (b.val % 16) :: x) =
        some (b.val, x) := by
      simp only [hex4, hx0, hx1, hx2, hsum]
    rw [hs]
    have := scanString_u fuel 0x30 0x30 (hexDigit (b.val / 16)) (hexDigit (b.val % 16)) x b.val hv
      (by omega)
    rw [henc] at this
    simpa using this


/-- Reading a well-formed multi-byte encoding copies its bytes. -/
theorem scanString_multibyte (fuel : Nat) (b : Byte) (bs x : Bytes) (hb : 0x80 ≤ b.val)
    (hsz : (decodeRune (b :: (bs ++ x))).2 = bs.length + 1)
    (henc : encodeRune (decodeRune (b :: (bs ++ x))).1 = b :: bs) :
    scanString (fuel + 1) (b :: (bs ++ x)) =
      (scanString fuel x).map (fun r => (b :: (bs ++ r.1), r.2)) := by
  have h1 : ¬ b.val = 0x22 := by omega
  have h2 : ¬ b.val = 0x5C := by omega
  have h3 : ¬ b.val < 0x20 := by omega
  have h4 : ¬ b.val < 0x80 := by omega
  simp only [scanString, h1, h2, h3, h4, if_false, hsz, henc, List.drop_succ_cons,
    List.drop_left, List.cons_append]

theorem escape_length_pos (b : Byte) :
    0 < (if isSafeByte b then [b] else escapeByte b).length := by
  unfold escapeByte
  split_ifs <;> simp

/-- Reading back what the encoder writes for a well-formed string gives the string. -/
theorem scanString_encodeStringAux (n : Nat) :
    ∀ (s : GoString) (fuel : Nat) (tail : Bytes), s.length ≤ n → validAux n s = true →
      (encodeStringAux n s).length < fuel →
      scanString fuel (encodeStringAux n s ++ 0x22 :: tail) = some (s, tail) := by
  induction n with
  | zero =>
    intro s fuel tail hl _ hf
    have : s = [] := List.eq_nil_of_length_eq_zero (by omega)
    subst this
    obtain ⟨f, rfl⟩ : ∃ f, fuel = f + 1 := ⟨fuel - 1, by omega⟩
    simp only [encodeStringAux, List.nil_append]
    exact scanString_quote f tail
  | succ m ih =>
    intro s fuel tail hl hv hf
    match s with
    | [] =>
      obtain ⟨f, rfl⟩ : ∃ f, fuel = f + 1 := ⟨fuel - 1, by omega⟩
      simp only [encodeStringAux, List.nil_append]
      exact scanString_quote f tail
    | b :: rest =>
      obtain ⟨f, rfl⟩ : ∃ f, fuel = f + 1 := ⟨fuel - 1, by omega⟩
      by_cases hb : b.val < 0x80
      · have hd : decodeRune (b :: rest) = (b.val, 1) := by simp [decodeRune, hb]
        have hne : ¬ (b.val = RuneError ∧ True) := by
          unfold RuneError; omega
        simp only [validAux, hd, hne, if_false, List.drop_succ_cons, List.drop_zero] at hv
        simp only [encodeStringAux, hb, if_true] at hf ⊢
        rw [List.append_assoc, scanString_ascii b hb]
        have hpos := escape_length_pos b
        rw [List.length_append] at hf
        rw [ih rest f tail (by simpa using hl) hv (by omega)]
        rfl
      · have hb1 : 0x80 ≤ b.val := by omega
        have hvalid : ¬ ((decodeRune (b :: rest)).1 = RuneError ∧ (decodeRune (b :: rest)).2 = 1) := by
          intro hc
          simp only [validAux, hc, and_self, if_true] at hv
          exact Bool.false_ne_true hv
        obtain ⟨bs, rest1, hrest, hsz, henc, hdec⟩ := decodeRune_multibyte b rest hb1 hvalid
        have hdrop : (b :: rest).drop (decodeRune (b :: rest)).2 = rest1 := by
          rw [hsz, hrest]; simp
        have htake : (b :: rest).take (decodeRune (b :: rest)).2 = b :: bs := by
          rw [hsz, hrest]; simp
        simp only [validAux, hvalid, if_false] at hv
        rw [hdrop] at hv
        have hl1 : rest1.length ≤ m := by
          rw [hrest] at hl
          simp only [List.length_cons, List.length_append] at hl
          omega
        by_cases hls : (decodeRune (b :: rest)).1 = 0x2028 ∨ (decodeRune (b :: rest)).1 = 0x2029
        · simp only [encodeStringAux, hb, if_false, hvalid, hls, if_true, hdrop] at hf ⊢
          have hs : str "\\u202" = [0x5C, 0x75, 0x32, 0x30, 0x32] := by decide
          rw [hs] at hf ⊢
          have hv4 : hex4 (0x32 :: 0x30 :: 0x32 :: hexDigit ((decodeRune (b :: rest)).1 % 16) ::
              (encodeStringAux m rest1 ++ 0x22 :: tail)) =
              some ((decodeRune (b :: rest)).1, encodeStringAux m rest1 ++ 0x22 :: tail) := by
            rcases hls with h | h <;> rw [h] <;> rfl
          have := scanString_u f 0x32 0x30 0x32 (hexDigit ((decodeRune (b :: rest)).1 % 16))
            (encodeStringAux m rest1 ++ 0x22 :: tail) (decodeRune (b :: rest)).1 hv4
            (by rcases hls with h | h <;> rw [h] <;> omega)
          simp only [List.cons_append, List.nil_append, List.append_assoc]
          rw [this, henc]
          simp only [List.length_append, List.length_cons, List.length_nil] at hf
          rw [ih rest1 f tail hl1 hv (by omega), hrest]
          rfl
        · simp only [encodeStringAux, hb, if_false, hvalid, hls, hdrop, htake] at hf ⊢
          simp only [List.cons_append, List.append_assoc]
          have hdec1 := hdec (encodeStringAux m rest1 ++ 0x22 :: tail)
          rw [scanString_multibyte f b bs _ hb1 (by rw [hdec1, hsz]) (by rw [hdec1, henc])]
          simp only [List.length_append, List.length_cons] at hf
          rw [ih rest1 f tail hl1 hv (by omega), hrest]
          rfl


theorem encodeString_cons (v : GoString) (Y : Bytes) :
    encodeString v ++ Y = 0x22 :: (encodeStringAux v.length v ++ 0x22 :: Y) := by
  simp [encodeString]

theorem scan_encodeString (v : GoString) (hv : utf8Valid v = true) (Y : Bytes) :
    scanString ((encodeStringAux v.length v ++ 0x22 :: Y).length + 1)
      (encodeStringAux v.length v ++ 0x22 :: Y) = some (v, Y) :=
  scanString_encodeStringAux v.length v _ Y (Nat.le_refl _) hv
    (by simp only [List.length_append, List.length_cons]; omega)

/-- Reading an encoded string as a JSON value gives the string. -/
theorem parseValue_encodeString (f : Nat) (v : GoString) (hv : utf8Valid v = true) (Y : Bytes) :
    parseValue (f + 1) (encodeString v ++ Y) = some (JKind.string v, Y) := by
  rw [encodeString_cons]
  simp only [parseValue, byte_lit_val, Nat.reduceMod, if_true, scan_encodeString v hv Y]
  rfl

/-- Reading a member with a string value that a comma follows. -/
theorem parseMembers_comma (f : Nat) (k v : GoString) (hk : utf8Valid k = true)
    (hv : utf8Valid v = true) (Z : Bytes) :
    parseMembers (f + 2) (encodeString k ++ 0x3A :: (encodeString v ++ 0x2C :: 0x22 :: Z)) =
      (parseMembers (f + 1) (0x22 :: Z)).map (fun r => ((k, JKind.string v) :: r.1, r.2)) := by
  rw [encodeString_cons k]
  have h1 := scan_encodeString k hk (0x3A :: (encodeString v ++ 0x2C :: 0x22 :: Z))
  have h2 := parseValue_encodeString f v hv (0x2C :: 0x22 :: Z)
  have h3 : skipSpace (encodeString v ++ 0x2C :: 0x22 :: Z) =
      encodeString v ++ 0x2C :: 0x22 :: Z := by
    rw [encodeString_cons]; simp [skipSpace, isSpace, byte_lit_val]
  rw [parseMembers]
  simp only [byte_lit_val, Nat.reduceMod, if_true, h1]
  simp only [skipSpace, isSpace, byte_lit_val, Nat.reduceMod, Nat.reduceEqDiff, or_self,
    decide_False, Bool.false_eq_true, if_false, if_true, h3, h2]
  rw [encodeString_cons] at h2
  simp [h2, skipSpace, isSpace, byte_lit_val]

/-- Reading the last member, with a string value that the closing brace follows. -/
theorem parseMembers_last (f : Nat) (k v : GoString) (hk : utf8Valid k = true)
    (hv : utf8Valid v = true) (Z : Bytes) :
    parseMembers (f + 2) (encodeString k ++ 0x3A :: (encodeString v ++ 0x7D :: Z)) =
      some ([(k, JKind.string v)], Z) := by
  rw [encodeString_cons k]
  have h1 := scan_encodeString k hk (0x3A :: (encodeString v ++ 0x7D :: Z))
  have h2 := parseValue_encodeString f v hv (0x7D :: Z)
  have h3 : skipSpace (encodeString v ++ 0x7D :: Z) = encodeString v ++ 0x7D :: Z := by
    rw [encodeString_cons]; simp [skipSpace, isSpace, byte_lit_val]
  rw [parseMembers]
  simp only [byte_lit_val, Nat.reduceMod, if_true, h1]
  simp only [skipSpace, isSpace, byte_lit_val, Nat.reduceMod, Nat.reduceEqDiff, or_self,
    decide_False, Bool.false_eq_true, if_false, if_true, h3, h2]
  rw [encodeString_cons] at h2
  simp [h2, skipSpace, isSpace, byte_lit_val]


/-- The members of an encoded record, read back. -/
theorem parseMembers_record (f : Nat) (s p o : GoString) (hs : utf8Valid s = true)
    (hp : utf8Valid p = true) (ho : utf8Valid o = true) :
    parseMembers (f + 4)
      (encodeString (str "Serialno") ++ 0x3A :: (encodeString s ++ 0x2C ::
        (encodeString (str "Partno") ++ 0x3A :: (encodeString p ++ 0x2C ::
          (encodeString (str "Owner") ++ 0x3A :: (encodeString o ++ 0x7D :: [])))))) =
      some ([(str "Serialno", JKind.string s), (str "Partno", JKind.string p),
        (str "Owner", JKind.string o)], []) := by
  have e1 : ∀ (k : GoString) (W : Bytes),
      encodeString k ++ W = 0x22 :: (encodeStringAux k.length k ++ 0x22 :: W) := encodeString_cons
  rw [e1 (str "Partno"), e1 (str "Owner")]
  rw [parseMembers_comma (f + 2) _ _ (by decide) hs]
  rw [← e1 (str "Partno")]
  rw [parseMembers_comma (f + 1) _ _ (by decide) hp]
  rw [← e1 (str "Owner")]
  rw [parseMembers_last f _ _ (by decide) ho]
  rfl

theorem marshalAsset_eq (s p o : GoString) :
    ((marshalAsset ⟨s, p, o⟩).1).getD [] =
      0x7B :: (encodeString (str "Serialno") ++ 0x3A :: (encodeString s ++ 0x2C ::
        (encodeString (str "Partno") ++ 0x3A :: (encodeString p ++ 0x2C ::
          (encodeString (str "Owner") ++ 0x3A :: (encodeString o ++ 0x7D :: [])))))) := by
  have ha : str "\x7b\"Serialno\":" = 0x7B :: (encodeString (str "Serialno") ++ [0x3A]) := by decide
  have hb : str ",\"Partno\":" = 0x2C :: (encodeString (str "Partno") ++ [0x3A]) := by decide
  have hc : str ",\"Owner\":" = 0x2C :: (encodeString (str "Owner") ++ [0x3A]) := by decide
  have hd : str "\x7d" = [0x7D] := by decide
  simp only [marshalAsset, Option.getD_some, ha, hb, hc, hd, List.cons_append, List.append_assoc,
    List.nil_append]

/-- The codec round trip on the level of `encoding/json`. -/
theorem unmarshalAsset_marshalAsset (s p o : GoString) (hs : utf8Valid s = true)
    (hp : utf8Valid p = true) (ho : utf8Valid o = true) :
    unmarshalAsset (((marshalAsset ⟨s, p, o⟩).1).getD []) = (⟨s, p, o⟩, none) := by
  rw [marshalAsset_eq]
  generalize hY : (encodeString s ++ 0x2C ::
        (encodeString (str "Partno") ++ 0x3A :: (encodeString p ++ 0x2C ::
          (encodeString (str "Owner") ++ 0x3A :: (encodeString o ++ 0x7D :: []))))) = Y
  have hm := parseMembers_record
    (2 * (0x7B :: (encodeString (str "Serialno") ++ 0x3A :: Y)).length - 2) s p o hs hp ho
  rw [hY] at hm
  have hfuel : 2 * (0x7B :: (encodeString (str "Serialno") ++ 0x3A :: Y)).length + 2 =
      2 * (0x7B :: (encodeString (str "Serialno") ++ 0x3A :: Y)).length - 2 + 4 := by
    simp only [List.length_cons]; omega
  have hk : encodeString (str "Serialno") ++ 0x3A :: Y =
      0x22 :: (encodeStringAux (str "Serialno").length (str "Serialno") ++ 0x22 :: 0x3A :: Y) :=
    encodeString_cons _ _
  unfold unmarshalAsset
  simp only [hfuel]
  rw [hk] at hm ⊢
  simp only [skipSpace, isSpace, byte_lit_val, Nat.reduceMod, Nat.reduceEqDiff, or_self,
    decide_False, Bool.false_eq_true, if_false, if_true, hm, List.isEmpty_nil]
  have f1 : equalFoldRight (str "Serialno") (str "Serialno") = true := by decide
  have f2 : equalFoldRight (str "Serialno") (str "Partno") = false := by decide
  have f3 : equalFoldRight (str "Partno") (str "Partno") = true := by decide
  have f4 : equalFoldRight (str "Serialno") (str "Owner") = false := by decide
  have f5 : equalFoldRight (str "Partno") (str "Owner") = false := by decide
  have f6 : equalFoldRight (str "Owner") (str "Owner") = true := by decide
  simp [List.foldl, storeMember, f1, f2, f3, f4, f5, f6]


theorem validAux_ascii (n : Nat) : ∀ (s : GoString), s.length ≤ n → (∀ b ∈ s, b.val < 0x80) →
    validAux n s = true := by
  induction n with
  | zero =>
    intro s hl _
    have : s = [] := List.eq_nil_of_length_eq_zero (by omega)
    subst this
    rfl
  | succ m ih =>
    intro s hl ha
    match s with
    | [] => rfl
    | b :: rest =>
      have hb : b.val < 0x80 := ha b (List.mem_cons_self _ _)
      have hd : decodeRune (b :: rest) = (b.val, 1) := by simp [decodeRune, hb]
      have hne : ¬ (b.val = RuneError ∧ True) := by
        unfold RuneError; omega
      simp only [validAux, hd, hne, if_false, List.drop_succ_cons, List.drop_zero]
      exact ih rest (by simpa using hl) (fun c hc => ha c (List.mem_cons_of_mem _ hc))

theorem parseDigits_ascii : ∀ (ds : GoString) (acc : Nat) (v : Nat), parseDigits acc ds = some v →
    ∀ b ∈ ds, b.val < 0x80 := by
  intro ds
  induction ds with
  | nil => intro _ _ _ b hb; cases hb
  | cons c cs ih =>
    intro acc v h b hb
    unfold parseDigits at h
    by_cases hc : 0x30 ≤ c.val ∧ c.val ≤ 0x39
    · simp only [hc, and_self, if_true] at h
      rcases List.mem_cons.mp hb with rfl | hb
      · omega
      · exact ih _ _ h b hb
    · simp [hc] at h

/-- A serial number that parses as an integer is ASCII, hence well-formed UTF-8. -/
theorem Atoi_utf8Valid (s : GoString) (h : Atoi s ≠ none) : utf8Valid s = true := by
  apply validAux_ascii _ _ (Nat.le_refl _)
  match s with
  | [] => exact absurd rfl h
  | c :: cs =>
    unfold Atoi at h
    simp only at h
    by_cases hsign : c.val = 0x2B ∨ c.val = 0x2D
    · simp only [hsign, if_true] at h
      cases hd : parseDigits 0 cs with
      | none => simp [hd] at h
      | some v =>
        intro b hb
        rcases List.mem_cons.mp hb with rfl | hb
        · omega
        · exact parseDigits_ascii cs 0 v hd b hb
    · simp only [hsign, if_false] at h
      cases hd : parseDigits 0 (c :: cs) with
      | none => simp [hd] at h
      | some v => exact parseDigits_ascii (c :: cs) 0 v hd

theorem assetPayload_eq (s p o : GoString) :
    ARtoJSON ⟨s, p, o⟩ = (some (assetPayload s p o), none) := by
  simp [ARtoJSON, marshalAsset, assetPayload]

theorem JSONtoAR_assetPayload (s p o : GoString) (hs : Atoi s ≠ none)
    (hp : utf8Valid p = true) (ho : utf8Valid o = true) :
    JSONtoAR (assetPayload s p o) = (⟨s, p, o⟩, none) := by
  have := unmarshalAsset_marshalAsset s p o (Atoi_utf8Valid s hs) hp ho
  simpa [JSONtoAR, assetPayload, ARtoJSON, marshalAsset] using this

/-- C6 as amended, codec round trip. For every asset record whose serial number
parses as an integer and whose part number and owner are well-formed UTF-8,
`ARtoJSON` succeeds and `JSONtoAR` of its result returns the same record, all
three fields equal, and no error. -/
theorem codec_round_trip (R : AssetObject) (hs : Atoi R.Serialno ≠ none)
    (hp : utf8Valid R.Partno = true) (ho : utf8Valid R.Owner = true) :
    ∃ payload, ARtoJSON R = (some payload, none) ∧ JSONtoAR payload = (R, none) := by
  obtain ⟨s, p, o⟩ := R
  exact ⟨assetPayload s p o, assetPayload_eq s p o, JSONtoAR_assetPayload s p o hs hp ho⟩

/-- Witness of `codec_round_trip`: the record of serial number 42. -/
theorem codec_round_trip_witness :
    ∃ payload, ARtoJSON ⟨str "42", str "WIDGET", str "alice"⟩ = (some payload, none) ∧
      JSONtoAR payload = (⟨str "42", str "WIDGET", str "alice"⟩, none) :=
  codec_round_trip ⟨str "42", str "WIDGET", str "alice"⟩ (by decide) (by decide) (by decide)

/-- C6 as stated fails: a part number that is the single byte `0xFF` is not
well-formed UTF-8; `ARtoJSON` writes it as the escape of U+FFFD, and `JSONtoAR`
returns the three bytes of U+FFFD in its place. -/
theorem codec_round_trip_counterexample :
    Atoi (str "42") = some 42 ∧
    ARtoJSON ⟨str "42", [0xFF], str "alice"⟩ =
      (some (str "\x7b\"Serialno\":\"42\",\"Partno\":\"\\ufffd\",\"Owner\":\"alice\"\x7d"), none) ∧
    JSONtoAR (str "\x7b\"Serialno\":\"42\",\"Partno\":\"\\ufffd\",\"Owner\":\"alice\"\x7d") =
      (⟨str "42", [0xEF, 0xBF, 0xBD], str "alice"⟩, none) ∧
    (JSONtoAR (str "\x7b\"Serialno\":\"42\",\"Partno\":\"\\ufffd\",\"Owner\":\"alice\"\x7d")).1 ≠
      ⟨str "42", [0xFF], str "alice"⟩ := by
  decide


/-! ## Reads after a post -/


/-- A post that returns no error has performed both inserts. -/
theorem PostAsset_success {stub stub1 : ChaincodeStub} {s p o : GoString} {res : Option Bytes}
    (hs : Atoi s ≠ none) (h : PostAsset stub [s, p, o] = some (stub1, res, none)) :
    ∃ stubA, UpdateLedger stub (str "AssetTable") [s] (assetPayload s p o) = some (stubA, none) ∧
      UpdateLedger stubA (str "ContractHistory") (historyKey s) (assetPayload s p o) =
        some (stub1, none) ∧ res = none := by
  rw [PostAsset_valid stub s p o hs] at h
  cases h1 : UpdateLedger stub (str "AssetTable") [s] (assetPayload s p o) with
  | none => simp [h1] at h
  | some r1 =>
    obtain ⟨stubA, e1⟩ := r1
    cases e1 with
    | some e => simp [h1] at h
    | none =>
      simp only [h1] at h
      cases h2 : UpdateLedger stubA (str "ContractHistory") (historyKey s) (assetPayload s p o) with
      | none => simp [h2] at h
      | some r2 =>
        obtain ⟨stub2, e2⟩ := r2
        cases e2 with
        | some e => simp [h2] at h
        | none =>
          simp only [h2, Option.some.injEq, Prod.mk.injEq, and_true] at h
          exact ⟨stubA, rfl, by rw [h2, h.1], h.2.symm⟩

theorem HasCatalogTable_appendRow_other {stub : ChaincodeStub} {T T1 : GoString} {row : Row}
    (hT : T1 ≠ T) (h : HasCatalogTable stub T1) : HasCatalogTable (appendRow stub T row) T1 := by
  unfold HasCatalogTable at h ⊢
  rw [getTable_appendRow_other hT]
  exact h

/-- C4 as amended, point-read consistency. For a valid argument list `(s, p, o)`
whose part number and owner are well-formed UTF-8, and a ledger in which
`AssetTable` exists with its catalog schema: when `PostAsset(s, p, o)` returns
no error, `GetAsset([s])` on the resulting ledger returns the encoded payload
and no error, and `JSONtoAR` of that payload returns the record `{s, p, o}`. -/
theorem point_read_consistency (stub stub1 : ChaincodeStub) (s p o : GoString)
    (res : Option Bytes) (hs : Atoi s ≠ none) (hp : utf8Valid p = true)
    (ho : utf8Valid o = true) (hA : HasCatalogTable stub (str "AssetTable"))
    (h : PostAsset stub [s, p, o] = some (stub1, res, none)) :
    GetAsset stub1 [s] = some (some (assetPayload s p o), none) ∧
    JSONtoAR (assetPayload s p o) = (⟨s, p, o⟩, none) := by
  refine ⟨?_, JSONtoAR_assetPayload s p o hs hp ho⟩
  obtain ⟨stubA, h1, h2, _⟩ := PostAsset_success hs h
  obtain ⟨t, _, hsch, _, _, ht1, hfind⟩ :=
    UpdateLedger_written (by decide) (nKeys_asset s) hA h1
  obtain ⟨_, _, _, _, _, hst, _⟩ := InsertRow_inserted (UpdateLedger_success (nKeys_history s) h2)
  have hq : QueryLedger stub1 (str "AssetTable") [s] = some (some (assetPayload s p o), none) := by
    apply QueryLedger_found (nKeys_asset s) (t := { t with Rows := t.Rows ++ [ledgerRow [s] (assetPayload s p o)] })
    · rw [hst, getTable_appendRow_other (by decide), ht1]
    · simp only [hsch]
      exact hfind
  simp only [GetAsset, hq]

/-- Witness of `point_read_consistency`: `PostAsset("42","WIDGET","alice")` then `GetAsset("42")`. -/
theorem point_read_consistency_witness :
    GetAsset postedLedger [str "42"] =
      some (some (assetPayload (str "42") (str "WIDGET") (str "alice")), none) ∧
    JSONtoAR (assetPayload (str "42") (str "WIDGET") (str "alice")) =
      (⟨str "42", str "WIDGET", str "alice"⟩, none) :=
  point_read_consistency freshLedger postedLedger (str "42") (str "WIDGET") (str "alice") none
    (by decide) (by decide) (by decide) (by decide) (by decide)

/-- C4 as stated fails: `PostAsset("7", "\xff", "bob")` on the ledger after
`Init` succeeds, `GetAsset("7")` returns the payload, and the payload decodes
to a record whose part number is the three bytes of U+FFFD, not the byte `0xFF`. -/
theorem point_read_counterexample :
    Atoi (str "7") = some 7 ∧
    (PostAsset freshLedger [str "7", [0xFF], str "bob"]).map (fun r => r.2) = some (none, none) ∧
    ((PostAsset freshLedger [str "7", [0xFF], str "bob"]).bind
        (fun r => GetAsset r.1 [str "7"])) =
      some (some (str "\x7b\"Serialno\":\"7\",\"Partno\":\"\\ufffd\",\"Owner\":\"bob\"\x7d"), none) ∧
    JSONtoAR (str "\x7b\"Serialno\":\"7\",\"Partno\":\"\\ufffd\",\"Owner\":\"bob\"\x7d") =
      (⟨str "7", [0xEF, 0xBF, 0xBD], str "bob"⟩, none) ∧
    (⟨str "7", [0xEF, 0xBF, 0xBD], str "bob"⟩ : AssetObject) ≠ ⟨str "7", [0xFF], str "bob"⟩ := by
  decide

theorem rowHasKeyPrefix_history2 (s : GoString) (P : Bytes) :
    rowHasKeyPrefix (catalogSchema (str "ContractHistory"))
      ([str "2016", s].map Column.String_) (ledgerRow (historyKey s) P) = true := by
  simp [rowHasKeyPrefix, catalogSchema_history, ledgerRow, getKeyAndVerifyRow, columnHasType,
    List.isPrefixOf, historyKey]

/-- C5 as amended, history linkage. For a valid argument list `(s, p, o)` whose
part number and owner are well-formed UTF-8, and a ledger in which
`ContractHistory` exists with its catalog schema: when `PostAsset(s, p, o)`
returns no error, the scan `GetList` of `ContractHistory` with the prefix
`["2016", s]` returns a row whose column 3 holds the encoded payload of the
asset, and `JSONtoAR` of that payload returns the record `{s, p, o}`. -/
theorem history_linkage (stub stub1 : ChaincodeStub) (s p o : GoString) (res : Option Bytes)
    (hs : Atoi s ≠ none) (hp : utf8Valid p = true) (ho : utf8Valid o = true)
    (hH : HasCatalogTable stub (str "ContractHistory"))
    (h : PostAsset stub [s, p, o] = some (stub1, res, none)) :
    ∃ rows row, GetList stub1 (str "ContractHistory") [str "2016", s] = (rows, none) ∧
      row ∈ rows ∧
      (row.Columns[GetNumberOfKeys (str "ContractHistory")]?).bind Column.GetBytes =
        some (assetPayload s p o) ∧
      ARtoJSON ⟨s, p, o⟩ = (some (assetPayload s p o), none) ∧
      JSONtoAR (assetPayload s p o) = (⟨s, p, o⟩, none) := by
  obtain ⟨stubA, h1, h2, _⟩ := PostAsset_success hs h
  obtain ⟨_, _, _, _, _, hstA, _⟩ := InsertRow_inserted (UpdateLedger_success (nKeys_asset s) h1)
  have hHA : HasCatalogTable stubA (str "ContractHistory") := by
    rw [hstA]
    exact HasCatalogTable_appendRow_other (by decide) hH
  obtain ⟨t, _, hsch, _, _, ht1, _⟩ :=
    UpdateLedger_written (by decide) (nKeys_history s) hHA h2
  refine ⟨(t.Rows ++ [ledgerRow (historyKey s) (assetPayload s p o)]).filter
      (rowHasKeyPrefix (catalogSchema (str "ContractHistory"))
        ([str "2016", s].map Column.String_)),
    ledgerRow (historyKey s) (assetPayload s p o), ?_, ?_, ?_, assetPayload_eq s p o,
    JSONtoAR_assetPayload s p o hs hp ho⟩
  · simp only [GetList, List.length_cons, List.length_nil, GetRows, ht1, hsch, drain_eq,
      List.nil_append]
    simp
  · rw [List.mem_filter]
    exact ⟨by simp, rowHasKeyPrefix_history2 s _⟩
  · have : GetNumberOfKeys (str "ContractHistory") = 3 := by decide
    rw [this]
    simp [ledgerRow, historyKey, Column.GetBytes]

/-- Witness of `history_linkage`: `PostAsset("42","WIDGET","alice")` then the scan of the prefix `["2016","42"]`. -/
theorem history_linkage_witness :
    ∃ rows row, GetList postedLedger (str "ContractHistory") [str "2016", str "42"] =
        (rows, none) ∧
      row ∈ rows ∧
      (row.Columns[GetNumberOfKeys (str "ContractHistory")]?).bind Column.GetBytes =
        some (assetPayload (str "42") (str "WIDGET") (str "alice")) ∧
      ARtoJSON ⟨str "42", str "WIDGET", str "alice"⟩ =
        (some (assetPayload (str "42") (str "WIDGET") (str "alice")), none) ∧
      JSONtoAR (assetPayload (str "42") (str "WIDGET") (str "alice")) =
        (⟨str "42", str "WIDGET", str "alice"⟩, none) :=
  history_linkage freshLedger postedLedger (str "42") (str "WIDGET") (str "alice") none
    (by decide) (by decide) (by decide) (by decide) (by decide)

/-- C5 as stated fails: `PostAsset("9", "WIDGET", "\xc3")` on the ledger after
`Init` succeeds; the scan of the prefix `["2016", "9"]` returns the one row of
the asset, and its payload decodes to a record whose owner is the three bytes
of U+FFFD, not the byte `0xC3`. -/
theorem history_linkage_counterexample :
    Atoi (str "9") = some 9 ∧
    (PostAsset freshLedger [str "9", str "WIDGET", [0xC3]]).map (fun r => r.2) =
      some (none, none) ∧
    ((PostAsset freshLedger [str "9", str "WIDGET", [0xC3]]).map
        (fun r => GetList r.1 (str "ContractHistory") [str "2016", str "9"])) =
      some ([ledgerRow (historyKey (str "9"))
        (str "\x7b\"Serialno\":\"9\",\"Partno\":\"WIDGET\",\"Owner\":\"\\ufffd\"\x7d")], none) ∧
    JSONtoAR (str "\x7b\"Serialno\":\"9\",\"Partno\":\"WIDGET\",\"Owner\":\"\\ufffd\"\x7d") =
      (⟨str "9", str "WIDGET", [0xEF, 0xBF, 0xBD]⟩, none) ∧
    (⟨str "9", str "WIDGET", [0xEF, 0xBF, 0xBD]⟩ : AssetObject) ≠
      ⟨str "9", str "WIDGET", [0xC3]⟩ := by
  decide


/-! ## The history scan -/


/-- The loop over the rows stops at the first row that does not decode and
returns its error without any record. -/
theorem decodeRows_undecodable (rows : List Row)
    (hcols : ∀ r ∈ rows, GetNumberOfKeys (str "ContractHistory") < r.Columns.length)
    (hbad : ∃ r ∈ rows, (JSONtoAR (rowPayload r)).2 ≠ none) :
    ∃ r ∈ rows, ∃ err, (JSONtoAR (rowPayload r)).2 = some err ∧
      decodeRows (GetNumberOfKeys (str "ContractHistory")) rows = some ([], some err) := by
  induction rows with
  | nil => obtain ⟨r, hr, _⟩ := hbad; cases hr
  | cons row rows ih =>
    have hlen := hcols row (List.mem_cons_self _ _)
    obtain ⟨col, hcol⟩ : ∃ col, row.Columns[GetNumberOfKeys (str "ContractHistory")]? = some col :=
      ⟨row.Columns[GetNumberOfKeys (str "ContractHistory")], List.getElem?_eq_getElem hlen⟩
    have hpay : rowPayload row = col.GetBytes.getD [] := by
      simp [rowPayload, hcol]
    rcases hj : JSONtoAR (col.GetBytes.getD []) with ⟨ar, e⟩
    cases e with
    | some err =>
      refine ⟨row, List.mem_cons_self _ _, err, by rw [hpay, hj], ?_⟩
      simp only [decodeRows, hcol, hj]
    | none =>
      have hbad1 : ∃ r ∈ rows, (JSONtoAR (rowPayload r)).2 ≠ none := by
        obtain ⟨r, hr, hr1⟩ := hbad
        rcases List.mem_cons.mp hr with rfl | hr
        · rw [hpay, hj] at hr1; exact absurd rfl hr1
        · exact ⟨r, hr, hr1⟩
      obtain ⟨r, hr, err, he, hd⟩ :=
        ih (fun r hr => hcols r (List.mem_cons_of_mem _ hr)) hbad1
      refine ⟨r, List.mem_cons_of_mem _ hr, err, he, ?_⟩
      simp only [decodeRows, hcol, hj, hd]

/-- C8 as amended. For a scan of the history table whose drained rows all have
a payload column and contain a row with an undecodable payload,
`GetListOfContractHistory` fails as a whole: it returns no records and the
error of `JSONtoAR` on an undecodable row. -/
theorem scan_fails_on_undecodable_row (stub : ChaincodeStub) (function : GoString)
    (args : List GoString) (rows : List Row)
    (hrows : GetList stub (str "ContractHistory") args = (rows, none))
    (hcols : ∀ r ∈ rows, GetNumberOfKeys (str "ContractHistory") < r.Columns.length)
    (hbad : ∃ r ∈ rows, (JSONtoAR (rowPayload r)).2 ≠ none) :
    ∃ r ∈ rows, ∃ err, (JSONtoAR (rowPayload r)).2 = some err ∧
      GetListOfContractHistory stub function args =
        some (none, some (GoError.Errorf (str "GetListOfOpenAucs() operation failed. ") err)) := by
  obtain ⟨r, hr, err, he, hd⟩ := decodeRows_undecodable rows hcols hbad
  refine ⟨r, hr, err, he, ?_⟩
  simp only [GetListOfContractHistory, hrows, hd]

/-- Witness of `scan_fails_on_undecodable_row`: the scan of the prefix
`["2016", "42"]` in a ledger that holds the entry of a post and an entry that is not JSON. -/
theorem scan_fails_on_undecodable_row_witness :
    ∃ r ∈ [ledgerRow (historyKey (str "42")) (assetPayload (str "42") (str "WIDGET") (str "alice")),
        ledgerRow [str "2016", str "42", str "manual"] (str "oops")],
      ∃ err, (JSONtoAR (rowPayload r)).2 = some err ∧
        GetListOfContractHistory mixedLedger [] [str "2016", str "42"] =
          some (none, some (GoError.Errorf (str "GetListOfOpenAucs() operation failed. ") err)) :=
  scan_fails_on_undecodable_row mixedLedger [] [str "2016", str "42"] _ (by decide) (by decide)
    (by decide)

/-- C8 as stated fails: in a ledger whose history table holds, under the prefix
`["2016", "42"]`, the entry of a post and an entry written by `UpdateLedger`
with a payload that is not JSON, the scan drains both rows, the first decodes,
and `GetListOfContractHistory` returns no records and the decode error. -/
theorem scan_discarded_counterexample :
    UpdateLedger postedLedger (str "ContractHistory") [str "2016", str "42", str "manual"]
      (str "oops") = some (mixedLedger, none) ∧
    GetList mixedLedger (str "ContractHistory") [str "2016", str "42"] =
      ([ledgerRow (historyKey (str "42")) (assetPayload (str "42") (str "WIDGET") (str "alice")),
        ledgerRow [str "2016", str "42", str "manual"] (str "oops")], none) ∧
    JSONtoAR (assetPayload (str "42") (str "WIDGET") (str "alice")) =
      (⟨str "42", str "WIDGET", str "alice"⟩, none) ∧
    JSONtoAR (str "oops") = (⟨[], [], []⟩, some (GoError.Lib LibError.jsonSyntax)) ∧
    GetListOfContractHistory mixedLedger [] [str "2016", str "42"] =
      some (none, some (GoError.Errorf (str "GetListOfOpenAucs() operation failed. ")
        (GoError.Lib LibError.jsonSyntax))) := by
  decide


end Chaincode
